import Mathlib

set_option maxRecDepth 1000000
set_option maxHeartbeats 4000000

/-!
# Verification of the `oauth1` Go library (ktnyt/oauth1)

A shallow embedding of the library's OAuth 1.0 signing core: percent
encoding (`net/url`), parameter-set handling (`url.Values`), the signature
base string and HMAC-SHA1 signing (`Signer.Base` / `Signer.Sign`), the
`Authorization` header codec (`formatOAuthHeader` and the test helper
`parseOAuthParamsOrFail`), nonce generation (`nonce`), parameter
preparation (`prepareParams`), the credential-exchange response handling
(`Config.RequestToken` / `Config.AccessToken`), and the signing transport
(`Transport.RoundTrip` with `cloneRequest`).

Modelling conventions:
* Go byte strings are modelled as Lean `String`s; conversions to bytes go
  through UTF-8 (`strBytes`), matching Go's `[]byte(s)`.  Go strings that
  hold invalid UTF-8 byte sequences are outside the model.
* Machine integers are `Nat`s reduced mod 2^32 where the Go code relies on
  32-bit wraparound (inside SHA-1 / MD5); elsewhere the values in scope
  never overflow.
* Go functions that mutate a reference argument (a `url.Values` map, an
  `*http.Request`) are embedded in state-passing style: they return the
  updated value alongside their result.
* I/O (the actual network send) is out of scope; the response-handling
  code is embedded as a pure function of the received status and body.
-/

/-! ## Bytes and UTF-8 -/

/-- UTF-8 encoding of a single character, as Go produces for `[]byte(s)`. -/
def utf8EncodeChar (c : Char) : List Nat :=
  let n := c.toNat
  if n < 0x80 then [n]
  else if n < 0x800 then
    [0xC0 ||| (n >>> 6), 0x80 ||| (n &&& 0x3F)]
  else if n < 0x10000 then
    [0xE0 ||| (n >>> 12), 0x80 ||| ((n >>> 6) &&& 0x3F), 0x80 ||| (n &&& 0x3F)]
  else
    [0xF0 ||| (n >>> 18), 0x80 ||| ((n >>> 12) &&& 0x3F),
     0x80 ||| ((n >>> 6) &&& 0x3F), 0x80 ||| (n &&& 0x3F)]

/-- The bytes of a Go string: UTF-8 bytes, i.e. `[]byte(s)`. -/
def strBytes (s : String) : List Nat := s.data.flatMap utf8EncodeChar

/-! ## SHA-1 (`crypto/sha1`)

The standard SHA-1 function over a byte list, exactly as used by Go's
`crypto/sha1` inside `hmac.New(sha1.New, key)`. -/

/-- 32-bit left rotation. -/
def rotl32 (n x : Nat) : Nat := ((x <<< n) ||| (x >>> (32 - n))) &&& 0xFFFFFFFF

/-- SHA-1 round function. -/
def sha1F (t b c d : Nat) : Nat :=
  if t < 20 then (b &&& c) ||| ((b ^^^ 0xFFFFFFFF) &&& d)
  else if t < 40 then b ^^^ c ^^^ d
  else if t < 60 then (b &&& c) ||| (b &&& d) ||| (c &&& d)
  else b ^^^ c ^^^ d

/-- SHA-1 round constants. -/
def sha1K (t : Nat) : Nat :=
  if t < 20 then 0x5A827999
  else if t < 40 then 0x6ED9EBA1
  else if t < 60 then 0x8F1BBCDC
  else 0xCA62C1D6

/-- Big-endian 32-bit words from a byte list. -/
def beWords : List Nat → List Nat
  | a :: b :: c :: d :: rest =>
    ((a <<< 24) ||| (b <<< 16) ||| (c <<< 8) ||| d) :: beWords rest
  | _ => []

/-- Big-endian 4-byte rendering of a 32-bit word. -/
def beBytes4 (w : Nat) : List Nat :=
  [(w >>> 24) &&& 0xFF, (w >>> 16) &&& 0xFF, (w >>> 8) &&& 0xFF, w &&& 0xFF]

/-- Big-endian 8-byte rendering of a 64-bit length. -/
def beBytes8 (w : Nat) : List Nat :=
  [(w >>> 56) &&& 0xFF, (w >>> 48) &&& 0xFF, (w >>> 40) &&& 0xFF, (w >>> 32) &&& 0xFF,
   (w >>> 24) &&& 0xFF, (w >>> 16) &&& 0xFF, (w >>> 8) &&& 0xFF, w &&& 0xFF]

/-- Extend the 16 message words to the 80-entry SHA-1 schedule, keeping
a most-recent-first window of the last 16 words (the same rolling-window
shape Go's `crypto/sha1` block function uses). -/
def sha1ExtendW : Nat → List Nat → List Nat → List Nat
  | 0, _, out => out.reverse
  | n + 1, window, out =>
    let x := rotl32 1 ((window.getD 2 0) ^^^ (window.getD 7 0) ^^^
      (window.getD 13 0) ^^^ (window.getD 15 0))
    sha1ExtendW n (x :: window.take 15) (x :: out)

/-- The full 80-word SHA-1 message schedule of one block. -/
def sha1Schedule (w16 : List Nat) : List Nat :=
  w16 ++ sha1ExtendW 64 w16.reverse []

/-- One SHA-1 block compression over the running 5-word state (the round
index travels with the state; the schedule is consumed in order). -/
def sha1Compress (h : List Nat) (block : List Nat) : List Nat :=
  let w := sha1Schedule (beWords block)
  let h0 := h.getD 0 0
  let h1 := h.getD 1 0
  let h2 := h.getD 2 0
  let h3 := h.getD 3 0
  let h4 := h.getD 4 0
  let fin := w.foldl
    (fun s wt =>
      match s with
      | (t, a, b, c, d, e) =>
        (t + 1, (rotl32 5 a + sha1F t b c d + e + sha1K t + wt) &&& 0xFFFFFFFF,
         a, rotl32 30 b, c, d))
    (0, h0, h1, h2, h3, h4)
  match fin with
  | (_, a, b, c, d, e) =>
    [(h0 + a) &&& 0xFFFFFFFF, (h1 + b) &&& 0xFFFFFFFF, (h2 + c) &&& 0xFFFFFFFF,
     (h3 + d) &&& 0xFFFFFFFF, (h4 + e) &&& 0xFFFFFFFF]

/-- Merkle–Damgård padding: 0x80, zeros to 56 mod 64, 8-byte big-endian
bit length. -/
def sha1Pad (msg : List Nat) : List Nat :=
  msg ++ [0x80] ++ List.replicate ((119 - (msg.length % 64)) % 64) 0 ++ beBytes8 (8 * msg.length)

/-- Split a byte list into 64-byte blocks (structural recursion on a fuel
bound so the definition reduces in the kernel; the fuel never runs out
because every step consumes at least one byte). -/
def chunks64Fuel : Nat → List Nat → List (List Nat)
  | _, [] => []
  | 0, _ :: _ => []
  | fuel + 1, x :: xs => (x :: xs).take 64 :: chunks64Fuel fuel ((x :: xs).drop 64)

/-- Split a byte list into 64-byte blocks. -/
def chunks64 (l : List Nat) : List (List Nat) := chunks64Fuel l.length l

/-- SHA-1 of a byte list, producing 20 digest bytes. -/
def sha1 (msg : List Nat) : List Nat :=
  ((chunks64 (sha1Pad msg)).foldl sha1Compress
    [0x67452301, 0xEFCDAB89, 0x98BADCFE, 0x10325476, 0xC3D2E1F0]).flatMap beBytes4

/-- HMAC-SHA1 (`crypto/hmac` with `sha1.New`): long keys are hashed first,
the key is zero-padded to the 64-byte block size, and the digest is
`H(opad ++ H(ipad ++ msg))`. -/
def hmacSha1 (key msg : List Nat) : List Nat :=
  let k0 := if 64 < key.length then sha1 key else key
  let k := k0 ++ List.replicate (64 - k0.length) 0
  sha1 ((k.map (· ^^^ 0x5C)) ++ sha1 ((k.map (· ^^^ 0x36)) ++ msg))

/-! ## MD5 (`crypto/md5`, used only by the nonce generator) -/

/-- MD5 per-round left-rotation amounts. -/
def md5S : List Nat :=
  [7, 12, 17, 22, 7, 12, 17, 22, 7, 12, 17, 22, 7, 12, 17, 22,
   5, 9, 14, 20, 5, 9, 14, 20, 5, 9, 14, 20, 5, 9, 14, 20,
   4, 11, 16, 23, 4, 11, 16, 23, 4, 11, 16, 23, 4, 11, 16, 23,
   6, 10, 15, 21, 6, 10, 15, 21, 6, 10, 15, 21, 6, 10, 15, 21]

/-- MD5 sine-derived round constants. -/
def md5K : List Nat :=
  [0xd76aa478, 0xe8c7b756, 0x242070db, 0xc1bdceee,
   0xf57c0faf, 0x4787c62a, 0xa8304613, 0xfd469501,
   0x698098d8, 0x8b44f7af, 0xffff5bb1, 0x895cd7be,
   0x6b901122, 0xfd987193, 0xa679438e, 0x49b40821,
   0xf61e2562, 0xc040b340, 0x265e5a51, 0xe9b6c7aa,
   0xd62f105d, 0x02441453, 0xd8a1e681, 0xe7d3fbc8,
   0x21e1cde6, 0xc33707d6, 0xf4d50d87, 0x455a14ed,
   0xa9e3e905, 0xfcefa3f8, 0x676f02d9, 0x8d2a4c8a,
   0xfffa3942, 0x8771f681, 0x6d9d6122, 0xfde5380c,
   0xa4beea44, 0x4bdecfa9, 0xf6bb4b60, 0xbebfbc70,
   0x289b7ec6, 0xeaa127fa, 0xd4ef3085, 0x04881d05,
   0xd9d4d039, 0xe6db99e5, 0x1fa27cf8, 0xc4ac5665,
   0xf4292244, 0x432aff97, 0xab9423a7, 0xfc93a039,
   0x655b59c3, 0x8f0ccc92, 0xffeff47d, 0x85845dd1,
   0x6fa87e4f, 0xfe2ce6e0, 0xa3014314, 0x4e0811a1,
   0xf7537e82, 0xbd3af235, 0x2ad7d2bb, 0xeb86d391]

/-- Little-endian 32-bit words from a byte list. -/
def leWords : List Nat → List Nat
  | a :: b :: c :: d :: rest =>
    (a ||| (b <<< 8) ||| (c <<< 16) ||| (d <<< 24)) :: leWords rest
  | _ => []

/-- Little-endian 4-byte rendering of a 32-bit word. -/
def leBytes4 (w : Nat) : List Nat :=
  [w &&& 0xFF, (w >>> 8) &&& 0xFF, (w >>> 16) &&& 0xFF, (w >>> 24) &&& 0xFF]

/-- Little-endian 8-byte rendering of a 64-bit length. -/
def leBytes8 (w : Nat) : List Nat :=
  [w &&& 0xFF, (w >>> 8) &&& 0xFF, (w >>> 16) &&& 0xFF, (w >>> 24) &&& 0xFF,
   (w >>> 32) &&& 0xFF, (w >>> 40) &&& 0xFF, (w >>> 48) &&& 0xFF, (w >>> 56) &&& 0xFF]

/-- One MD5 block compression. -/
def md5Compress (h : List Nat) (block : List Nat) : List Nat :=
  let m := leWords block
  let a0 := h.getD 0 0
  let b0 := h.getD 1 0
  let c0 := h.getD 2 0
  let d0 := h.getD 3 0
  let fin := (List.range 64).foldl
    (fun s i =>
      match s with
      | (a, b, c, d) =>
        let f :=
          if i < 16 then (b &&& c) ||| ((b ^^^ 0xFFFFFFFF) &&& d)
          else if i < 32 then (d &&& b) ||| ((d ^^^ 0xFFFFFFFF) &&& c)
          else if i < 48 then b ^^^ c ^^^ d
          else c ^^^ (b ||| (d ^^^ 0xFFFFFFFF))
        let g :=
          if i < 16 then i
          else if i < 32 then (5 * i + 1) % 16
          else if i < 48 then (3 * i + 5) % 16
          else (7 * i) % 16
        let sum := (f + a + md5K.getD i 0 + m.getD g 0) &&& 0xFFFFFFFF
        (d, (b + rotl32 (md5S.getD i 0) sum) &&& 0xFFFFFFFF, b, c))
    (a0, b0, c0, d0)
  match fin with
  | (a, b, c, d) =>
    [(a0 + a) &&& 0xFFFFFFFF, (b0 + b) &&& 0xFFFFFFFF,
     (c0 + c) &&& 0xFFFFFFFF, (d0 + d) &&& 0xFFFFFFFF]

/-- MD5 padding: 0x80, zeros to 56 mod 64, 8-byte little-endian bit length. -/
def md5Pad (msg : List Nat) : List Nat :=
  msg ++ [0x80] ++ List.replicate ((119 - (msg.length % 64)) % 64) 0 ++ leBytes8 (8 * msg.length)

/-- MD5 of a byte list, producing 16 digest bytes. -/
def md5 (msg : List Nat) : List Nat :=
  ((chunks64 (md5Pad msg)).foldl md5Compress
    [0x67452301, 0xefcdab89, 0x98badcfe, 0x10325476]).flatMap leBytes4

/-! ## Base64 (`encoding/base64`, standard alphabet) and lowercase hex -/

/-- The standard base64 alphabet. -/
def base64Alphabet : List Char :=
  "ABCDEFGHIJKLMNOPQRSTUVWXYZabcdefghijklmnopqrstuvwxyz0123456789+/".data

/-- Standard base64 encoding with `=` padding, as
`base64.StdEncoding.EncodeToString`. -/
def base64Chars : List Nat → List Char
  | a :: b :: c :: rest =>
    base64Alphabet.getD (a >>> 2) 'A' ::
    base64Alphabet.getD (((a &&& 0x3) <<< 4) ||| (b >>> 4)) 'A' ::
    base64Alphabet.getD (((b &&& 0xF) <<< 2) ||| (c >>> 6)) 'A' ::
    base64Alphabet.getD (c &&& 0x3F) 'A' :: base64Chars rest
  | [a, b] =>
    [base64Alphabet.getD (a >>> 2) 'A',
     base64Alphabet.getD (((a &&& 0x3) <<< 4) ||| (b >>> 4)) 'A',
     base64Alphabet.getD ((b &&& 0xF) <<< 2) 'A', '=']
  | [a] =>
    [base64Alphabet.getD (a >>> 2) 'A',
     base64Alphabet.getD ((a &&& 0x3) <<< 4) 'A', '=', '=']
  | [] => []

/-- Base64 of a byte list as a string. -/
def base64Encode (bs : List Nat) : String := String.mk (base64Chars bs)

/-- Lowercase hex digit for a nibble. -/
def hexLowerDigit (n : Nat) : Char := "0123456789abcdef".data.getD n '0'

/-- Lowercase hex of a byte list, as `fmt.Sprintf("%x", sum)`. -/
def hexLower (bs : List Nat) : String :=
  String.mk (bs.flatMap (fun b => [hexLowerDigit ((b >>> 4) &&& 0xF), hexLowerDigit (b &&& 0xF)]))

/-! ## Go string helpers (`strings` package)

These embed `strings.Split`, `strings.Join`, `strings.Replace` (with a
single-character pattern, the only shape the library uses), `strings.ToUpper`
and `strings.HasPrefix`.  They operate on the character list of a `String`;
all strings these helpers are applied to in the library are ASCII, where
character positions and Go's byte positions coincide. -/

/-- Does `sep` occur at the head of `s`? -/
def sepMatch : List Char → List Char → Bool
  | [], _ => true
  | _ :: _, [] => false
  | a :: as, b :: bs => a == b && sepMatch as bs

/-- Worker for `strings.Split`: scan for `sep`, cutting a chunk at each
occurrence.  Fuel-based structural recursion (the fuel is at least the
input length at every call, so it never runs out for non-empty `sep`). -/
def splitAux (sep : List Char) : Nat → List Char → List Char → List (List Char)
  | _, [], acc => [acc.reverse]
  | 0, _ :: _, acc => [acc.reverse]
  | fuel + 1, c :: rest, acc =>
    if sepMatch sep (c :: rest) then
      acc.reverse :: splitAux sep fuel ((c :: rest).drop sep.length) []
    else
      splitAux sep fuel rest (c :: acc)

/-- `strings.Split(s, sep)` for non-empty `sep` (an empty separator makes Go
split into individual runes; the library only splits on `"&"`, `"="` and
`", "`). -/
def goSplit (sep s : String) : List String :=
  if sep.data = [] then s.data.map (fun c => String.mk [c])
  else (splitAux sep.data s.data.length s.data []).map String.mk

/-- `strings.Join(elems, sep)` at the character-list level. -/
def joinList (sep : List Char) : List (List Char) → List Char
  | [] => []
  | [x] => x
  | x :: y :: rest => x ++ sep ++ joinList sep (y :: rest)

/-- `strings.Join(elems, sep)`. -/
def goJoin (sep : String) (elems : List String) : String :=
  String.mk (joinList sep.data (elems.map String.data))

/-- Replace every occurrence of one character by a replacement string;
`strings.Replace(s, "+", "%20", -1)` and `strings.Replace(s, "\"", "", -1)`
are both of this single-character-pattern shape. -/
def replaceChar (pat : Char) (rep : List Char) (s : String) : String :=
  String.mk (s.data.flatMap (fun c => if c = pat then rep else [c]))

/-- `normalizeSpace` from the library: `strings.Replace(s, "+", "%20", -1)`. -/
def normalizeSpace (s : String) : String := replaceChar '+' "%20".data s

/-- `strings.ToUpper`, per character (ASCII in every string in scope). -/
def goToUpper (s : String) : String := String.mk (s.data.map Char.toUpper)

/-- `strings.HasPrefix`. -/
def goHasPre (pre s : String) : Bool := sepMatch pre.data s.data

/-- `s[n:]` on an ASCII string (byte slicing coincides with character
dropping there). -/
def goDrop (n : Nat) (s : String) : String := String.mk (s.data.drop n)

/-! ## Percent encoding (`net/url`) -/

/-- Go's `shouldEscape(c, encodeQueryComponent)`: alphanumerics and
`-`, `_`, `.`, `~` stay, everything else is escaped. -/
def isUnreservedByte (b : Nat) : Bool :=
  (0x41 ≤ b && b ≤ 0x5A) || (0x61 ≤ b && b ≤ 0x7A) || (0x30 ≤ b && b ≤ 0x39) ||
  b == 0x2D || b == 0x5F || b == 0x2E || b == 0x7E

/-- Uppercase hex digit for a nibble (Go's `upperhex`). -/
def hexUpperDigit (n : Nat) : Char := "0123456789ABCDEF".data.getD n '0'

/-- Escape a single byte the way `url.QueryEscape` renders it: unreserved
bytes stay, a space becomes `+`, anything else becomes `%XX`. -/
def escByte (b : Nat) : List Char :=
  if isUnreservedByte b then [Char.ofNat b]
  else if b == 0x20 then ['+']
  else ['%', hexUpperDigit ((b >>> 4) &&& 0xF), hexUpperDigit (b &&& 0xF)]

/-- `url.QueryEscape`. -/
def queryEscape (s : String) : String :=
  String.mk ((strBytes s).flatMap escByte)

/-- Is `c` an ASCII hex digit (Go's `ishex`)? -/
def isHexChar (c : Char) : Bool :=
  ('0' ≤ c && c ≤ '9') || ('a' ≤ c && c ≤ 'f') || ('A' ≤ c && c ≤ 'F')

/-- Numeric value of a hex digit (Go's `unhex`). -/
def unhex (c : Char) : Nat :=
  if '0' ≤ c && c ≤ '9' then c.toNat - '0'.toNat
  else if 'a' ≤ c && c ≤ 'f' then c.toNat - 'a'.toNat + 10
  else if 'A' ≤ c && c ≤ 'F' then c.toNat - 'A'.toNat + 10
  else 0

/-- Decode a UTF-8 byte list back into characters (Go strings carry raw
bytes; a Lean `String` must re-decode them).  Invalid sequences fall back
to one character per byte, which keeps the function total; such inputs are
outside the model. -/
def utf8DecodeFuel : Nat → List Nat → List Char
  | _, [] => []
  | 0, b :: bs => (b :: bs).map (fun x => Char.ofNat (x % 256))
  | fuel + 1, b :: bs =>
    if b < 0x80 then Char.ofNat b :: utf8DecodeFuel fuel bs
    else if 0xC0 ≤ b && b < 0xE0 then
      match bs with
      | b1 :: rest =>
        if 0x80 ≤ b1 && b1 < 0xC0 then
          Char.ofNat (((b &&& 0x1F) <<< 6) ||| (b1 &&& 0x3F)) :: utf8DecodeFuel fuel rest
        else Char.ofNat b :: utf8DecodeFuel fuel bs
      | [] => [Char.ofNat b]
    else if 0xE0 ≤ b && b < 0xF0 then
      match bs with
      | b1 :: b2 :: rest =>
        if 0x80 ≤ b1 && b1 < 0xC0 && 0x80 ≤ b2 && b2 < 0xC0 then
          Char.ofNat (((b &&& 0xF) <<< 12) ||| ((b1 &&& 0x3F) <<< 6) ||| (b2 &&& 0x3F)) ::
            utf8DecodeFuel fuel rest
        else Char.ofNat b :: utf8DecodeFuel fuel bs
      | _ => Char.ofNat b :: utf8DecodeFuel fuel bs
    else if 0xF0 ≤ b && b < 0xF8 then
      match bs with
      | b1 :: b2 :: b3 :: rest =>
        if 0x80 ≤ b1 && b1 < 0xC0 && 0x80 ≤ b2 && b2 < 0xC0 && 0x80 ≤ b3 && b3 < 0xC0 then
          let n := ((b &&& 0x7) <<< 18) ||| ((b1 &&& 0x3F) <<< 12) |||
            ((b2 &&& 0x3F) <<< 6) ||| (b3 &&& 0x3F)
          (if h : n.isValidChar then Char.ofNatAux n h else Char.ofNat b) ::
            (if n.isValidChar then utf8DecodeFuel fuel rest else utf8DecodeFuel fuel bs)
        else Char.ofNat b :: utf8DecodeFuel fuel bs
      | _ => Char.ofNat b :: utf8DecodeFuel fuel bs
    else Char.ofNat (b % 256) :: utf8DecodeFuel fuel bs

/-- Bytes back to a string (inverse of `strBytes` on valid UTF-8). -/
def bytesToStr (bs : List Nat) : String := String.mk (utf8DecodeFuel bs.length bs)

/-- Worker for `url.QueryUnescape` (mode `encodeQueryComponent`): decode
`%XX` escapes and `+` into the raw byte list, or report Go's
`EscapeError` (rendered as its `Error()` string) on a malformed escape. -/
def unescapeBytes : List Char → Except String (List Nat)
  | [] => .ok []
  | '%' :: rest =>
    match rest with
    | c1 :: c2 :: rest2 =>
      if isHexChar c1 && isHexChar c2 then
        (unescapeBytes rest2).map (fun bs => (unhex c1 <<< 4 ||| unhex c2) :: bs)
      else .error ("invalid URL escape " ++ "\"" ++ String.mk ('%' :: c1 :: [c2]) ++ "\"")
    | short => .error ("invalid URL escape " ++ "\"" ++ String.mk ('%' :: short) ++ "\"")
  | '+' :: rest => (unescapeBytes rest).map (fun bs => 0x20 :: bs)
  | c :: rest => (unescapeBytes rest).map (fun bs => utf8EncodeChar c ++ bs)

/-- `url.QueryUnescape`. -/
def queryUnescape (s : String) : Except String String :=
  (unescapeBytes s.data).map bytesToStr

/-! ## `url.Values`

Go's `url.Values` is a `map[string][]string`.  It is embedded as the
insertion-ordered list of key/value pairs.  `Encode` sorts the distinct
keys (Go iterates the map's keys and `sort.Strings`s them, so the map's
nondeterministic iteration order never reaches the output) and emits each
key's values in the order they were added — exactly the per-key slice
order.  The one place the library ranges over a map without sorting
(`prepareParams` over `r.URL.Query()`) is noted at its definition. -/

/-- A parameter multi-map in insertion order. -/
abbrev Values := List (String × String)

/-- `Values.Add`: append a value to the key's slice. -/
def valuesAdd (key value : String) (v : Values) : Values := v ++ [(key, value)]

/-- `Values.Get`: first value for the key, `""` when absent. -/
def valuesGet (key : String) (v : Values) : String :=
  match (List.find? (fun kv => kv.1 == key) v) with
  | some kv => kv.2
  | none => ""

/-- Byte-wise lexicographic comparison of character lists.  `sort.Strings`
compares UTF-8 bytes; byte-wise order on UTF-8 agrees with code-point
order, so the comparison is taken at the character level. -/
def charsLtB : List Char → List Char → Bool
  | _, [] => false
  | [], _ :: _ => true
  | a :: as, b :: bs => if a < b then true else if b < a then false else charsLtB as bs

/-- `a ≤ b` in `sort.Strings` order. -/
def strLe (a b : String) : Prop := charsLtB b.data a.data = false

instance : DecidableRel strLe := fun _ _ => inferInstanceAs (Decidable (_ = false))

/-- `sort.Strings`: sort ascending (the library only sorts lists of
distinct map keys, so stability is immaterial). -/
def sortStrings (l : List String) : List String := List.insertionSort strLe l

/-- The distinct keys of a parameter list, in `sort.Strings` order — the
iteration order of `Values.Encode`. -/
def sortedKeys (v : Values) : List String :=
  sortStrings (v.map Prod.fst).dedup

/-- The `k=v` pair strings of `Values.Encode`, in output order: sorted
distinct keys, each key's values in insertion order, both components
percent-encoded. -/
def encodePieces (v : Values) : List String :=
  (sortedKeys v).flatMap
    (fun k => (v.filter (fun kv => kv.1 == k)).map
      (fun kv => queryEscape k ++ "=" ++ queryEscape kv.2))

/-- `Values.Encode`. -/
def valuesEncode (v : Values) : String := goJoin "&" (encodePieces v)

/-! ## `url.ParseQuery` / `url.URL.Query`

Go's `parseQuery` splits on `&` and `;`, skips empty segments, cuts each
segment at the first `=`, and query-unescapes key and value.  On an
unescape error it records the first error and keeps going; `ParseQuery`
returns the error (its callers then discard the values), while
`URL.Query()` ignores the error and keeps the successfully parsed pairs. -/

/-- Split a query string on `&` and `;` (Go's `strings.IndexAny(key, "&;")`
loop).  Fuel-based so the definition reduces in the kernel; every step
consumes at least one character, so `s.length` fuel always suffices. -/
def querySegsFuel : Nat → List Char → List (List Char)
  | _, [] => []
  | 0, _ :: _ => []
  | fuel + 1, c :: rest =>
    let seg := (c :: rest).takeWhile (fun x => x ≠ '&' && x ≠ ';')
    seg :: querySegsFuel fuel (((c :: rest).drop seg.length).drop 1)

/-- Split a query string on `&` and `;`. -/
def querySegs (s : List Char) : List (List Char) := querySegsFuel s.length s

/-- One segment: cut at the first `=` (absent `=` means empty value). -/
def segCut (seg : List Char) : String × String :=
  let k := seg.takeWhile (fun c => c ≠ '=')
  let rest := seg.drop k.length
  (String.mk k, String.mk (rest.drop 1))

/-- The core of Go's `parseQuery`: the successfully parsed pairs plus the
first unescape error, if any. -/
def parseQueryCore (query : String) : Values × Option String :=
  (querySegs query.data).foldl
    (fun acc seg =>
      if seg = [] then acc
      else
        let kv := segCut seg
        match queryUnescape kv.1, queryUnescape kv.2 with
        | .ok k, .ok v => (acc.1 ++ [(k, v)], acc.2)
        | .error e, _ => (acc.1, match acc.2 with | some e0 => some e0 | none => some e)
        | _, .error e => (acc.1, match acc.2 with | some e0 => some e0 | none => some e))
    ([], none)

/-- `url.ParseQuery`: values, or the first escape error. -/
def parseQuery (query : String) : Except String Values :=
  match parseQueryCore query with
  | (_, some e) => .error e
  | (vs, none) => .ok vs

/-- `url.URL.Query()`: ignores the error, keeps the parsed pairs. -/
def urlQuery (rawQuery : String) : Values := (parseQueryCore rawQuery).1

/-! ## URLs, headers, requests

A `url.URL` is modelled by the fields the library touches: scheme, host
(including any explicit port, kept verbatim), path and raw query.  Go's
`url.Parse`/`URL.String()` round-trip is the identity on such URLs, so
`url.Parse(req.URL.String())` in `Signer.Base` is the identity here.
Header keys are stored in Go's canonical form (`Content-Type`,
`Authorization`), which is how every request in the library writes them. -/

structure GoURL where
  scheme : String
  host : String
  path : String
  rawQuery : String
deriving DecidableEq

/-- `url.URL.String()` for the simple absolute URLs in scope. -/
def urlString (u : GoURL) : String :=
  u.scheme ++ "://" ++ u.host ++ u.path ++ (if u.rawQuery = "" then "" else "?" ++ u.rawQuery)

/-- An `http.Header`: canonical key → value slice. -/
abbrev Header := List (String × List String)

/-- `Header.Get`: first value for the key, `""` when absent. -/
def headerGet (key : String) (h : Header) : String :=
  match (List.find? (fun kv => kv.1 == key) h) with
  | some (_, v :: _) => v
  | _ => ""

/-- `Header.Add`: append to the key's slice. -/
def headerAdd (key value : String) : Header → Header
  | [] => [(key, [value])]
  | (k, vs) :: rest =>
    if k == key then (k, vs ++ [value]) :: rest else (k, vs) :: headerAdd key value rest

/-- A request body: its bytes (as a string) and whether the reader has
already been drained. -/
structure Body where
  content : String
  consumed : Bool
deriving DecidableEq

/-- The slice of `http.Request` the library touches. -/
structure Request where
  method : String
  url : GoURL
  header : Header
  body : Option Body
deriving DecidableEq

/-! ## The signer (`Signer.Base`, `Signer.Sign`, `nonce`)

`Signer.Base` mutates its `params` argument (a Go map is a reference):
it adds `oauth_nonce` and `oauth_timestamp` before encoding.  The
embedding returns the updated parameter list alongside the base string.
The timestamp is carried as its Unix seconds, which is all
`strconv.FormatInt(s.Timestamp.Unix(), 10)` reads of it. -/

structure Signer where
  nonce : String
  timestampUnix : Int

/-- `Signer.Base`: uppercased method, query-stripped URL and the encoded
parameter string (with `+` rewritten to `%20`), the last two
query-escaped once more, joined by `&`.  Returns the base string and the
mutated params. -/
def signerBase (s : Signer) (req : Request) (params : Values) : String × Values :=
  let params := valuesAdd "oauth_nonce" s.nonce params
  let params := valuesAdd "oauth_timestamp" (toString s.timestampUnix) params
  let baseURL : GoURL := { req.url with rawQuery := "" }
  let upperMethod := goToUpper req.method
  let escapedURL := queryEscape (urlString baseURL)
  let escapedParams := queryEscape (normalizeSpace (valuesEncode params))
  (goJoin "&" [upperMethod, escapedURL, escapedParams], params)

/-- `Signer.Sign`: HMAC-SHA1 of the base string keyed by
`consumerSecret & tokenSecret`, base64-encoded.  (The Go version returns
an error only if the hash's `Write` fails, which it never does.)  Returns
the signature and the params as mutated by `Base`. -/
def signerSign (s : Signer) (consumerSecret tokenSecret : String) (req : Request)
    (params : Values) : String × Values :=
  let bp := signerBase s req params
  let key := goJoin "&" [consumerSecret, tokenSecret]
  (base64Encode (hmacSha1 (strBytes key) (strBytes bp.1)), bp.2)

/-- `nonce()`: lowercase hex of the MD5 of the decimal Unix time followed
by a decimal random 63-bit integer.  The time and the random draw are the
two inputs. -/
def nonceFromSeed (now : Int) (r : Nat) : String :=
  hexLower (md5 (strBytes (toString now ++ toString r)))

/-! ## `prepareParams`

Reads a form-encoded body (restoring the reader on success; a parse
failure leaves the original reader drained), re-escapes each URL query
value, and adds the three fixed OAuth parameters.  The Go code ranges
over the `r.URL.Query()` map; the embedding adds the query pairs in query
string order, which is observationally equal through `Values.Encode`
(which sorts keys) and `Values.Get` (first value of a key).  Returns the
result and the request as mutated. -/
def prepareParams (r : Request) (consumerKey : String) : Except String Values × Request :=
  let step : Except String Values × Request :=
    match r.body with
    | some b =>
      if headerGet "Content-Type" r.header == "application/x-www-form-urlencoded" then
        let bytes := if b.consumed then "" else b.content
        match parseQuery bytes with
        | .error e => (.error e, { r with body := some ⟨b.content, true⟩ })
        | .ok ps => (.ok ps, { r with body := some ⟨bytes, false⟩ })
      else (.ok [], r)
    | none => (.ok [], r)
  match step with
  | (.error e, r2) => (.error e, r2)
  | (.ok ps, r2) =>
    let ps := (urlQuery r.url.rawQuery).foldl
      (fun acc kv => valuesAdd kv.1 (queryEscape kv.2) acc) ps
    let ps := valuesAdd "oauth_consumer_key" consumerKey ps
    let ps := valuesAdd "oauth_signature_method" "HMAC-SHA1" ps
    let ps := valuesAdd "oauth_version" "1.0" ps
    (.ok ps, r2)

/-! ## The `Authorization` header codec -/

/-- One `k="v"` piece of the header: Go's
`fmt.Sprintf("%s=\"%s\"", pair[0], pair[1])` after splitting a `k=v`
piece on `=`.  (Go panics when the split has no second component; that
never happens on `Values.Encode` output containing an `=` in every piece,
and the embedding totalizes it with `""`.) -/
def fmtPair (s : String) : String :=
  let pair := goSplit "=" s
  pair.headD "" ++ "=" ++ "\"" ++ (pair.drop 1).headD "" ++ "\""

/-- `formatOAuthHeader`: re-split the encoded parameter string and quote
each value. -/
def formatOAuthHeader (params : Values) : String :=
  let joined := normalizeSpace (valuesEncode params)
  "OAuth " ++ goJoin ", " ((goSplit "&" joined).map fmtPair)

/-- `strings.Replace(s, "\"", "", -1)`. -/
def removeQuotes (s : String) : String := replaceChar '"' [] s

/-- Go map assignment `m[k] = v` on an association list. -/
def mapInsert (k v : String) : List (String × String) → List (String × String)
  | [] => [(k, v)]
  | (k0, v0) :: rest =>
    if k0 == k then (k0, v) :: rest else (k0, v0) :: mapInsert k v rest

/-- Worker for `parseOAuthParamsOrFail`: each `", "`-separated piece must
split on `=` into exactly two parts; quotes are stripped from the value.
(The test reports a failed assertion otherwise — embedded as an error.) -/
def parseOAuthPairsAux : List String → List (String × String) → Except String (List (String × String))
  | [], m => .ok m
  | s :: rest, m =>
    let pair := goSplit "=" s
    if pair.length ≠ 2 then .error ("Error parsing OAuth parameter " ++ s)
    else parseOAuthPairsAux rest
      (mapInsert (pair.headD "") (removeQuotes ((pair.drop 1).headD "")) m)

/-- `parseOAuthParamsOrFail` from the test suite: require the `OAuth`
scheme token, split the rest on `", "`, and collect the pairs into a map
(later pairs overwrite earlier ones, as Go map assignment does). -/
def parseOAuthParams (authHeader : String) : Except String (List (String × String)) :=
  if goHasPre "OAuth" authHeader then
    parseOAuthPairsAux (goSplit ", " (goDrop 6 authHeader)) []
  else .error "Expected Authorization header to start with OAuth"

/-! ## The credential flow (`Config.RequestToken` / `Config.AccessToken`)

Each operation splits into the request the library builds and signs
(everything before the network send) and the handling of the provider's
response (status, body).  The nonce and timestamp that Go draws from
`nonce()` and `time.Now()` are explicit arguments. -/

structure Endpoint where
  requestTokenURL : GoURL
  authorizeURL : GoURL
  accessTokenURL : GoURL

structure Config where
  consumerKey : String
  consumerSecret : String
  callbackURL : String
  endpoint : Endpoint

/-- The signed request-token request (`Config.RequestToken`, lines 77–92):
a bodyless POST to the request-token URL, `oauth_callback` added, signed
with the consumer secret and an empty token secret.  Returns the final
parameter set and the request carrying the `Authorization` header. -/
def requestTokenRequest (c : Config) (nonceV : String) (ts : Int) :
    Except String (Values × Request) :=
  let req : Request := ⟨"POST", c.endpoint.requestTokenURL, [], none⟩
  match prepareParams req c.consumerKey with
  | (.error e, _) => .error e
  | (.ok params, req2) =>
    let params := valuesAdd "oauth_callback" c.callbackURL params
    let signer : Signer := ⟨nonceV, ts⟩
    let sp := signerSign signer c.consumerSecret "" req2 params
    let params := valuesAdd "oauth_signature" sp.1 sp.2
    .ok (params, { req2 with header := headerAdd "Authorization" (formatOAuthHeader params) req2.header })

/-- `Config.RequestToken` response handling (lines 102–121): require
status 200 or 201, parse the form body, require non-empty `oauth_token`
and `oauth_token_secret`, require `oauth_callback_confirmed == "true"`. -/
def requestTokenRespond (status : Nat) (body : String) : Except String (String × String) :=
  if status ≠ 200 && status ≠ 201 then
    .error ("oauth1: Server returned unexpected status " ++ toString status)
  else
    match parseQuery body with
    | .error e => .error e
    | .ok values =>
      let requestToken := valuesGet "oauth_token" values
      let requestSecret := valuesGet "oauth_token_secret" values
      if requestToken == "" || requestSecret == "" then
        .error "oauth1: Response missing oauth_token or oauth_token_secret"
      else if valuesGet "oauth_callback_confirmed" values ≠ "true" then
        .error "oauth1: oauth_callback_confirmed was not true"
      else .ok (requestToken, requestSecret)

set_option linter.unusedVariables false in
/-- The signed access-token request (`Config.AccessToken`, lines 164–180):
a bodyless POST to the access-token URL carrying `oauth_token` and
`oauth_verifier`.  The source passes `""` — not `requestSecret` — as the
token secret of `Signer.Sign`; the `requestSecret` argument is accepted
and never read, exactly as in the Go function. -/
def accessTokenRequest (c : Config) (requestToken requestSecret verifier : String)
    (nonceV : String) (ts : Int) : Except String (Values × Request) :=
  let req : Request := ⟨"POST", c.endpoint.accessTokenURL, [], none⟩
  match prepareParams req c.consumerKey with
  | (.error e, _) => .error e
  | (.ok params, req2) =>
    let params := valuesAdd "oauth_token" requestToken params
    let params := valuesAdd "oauth_verifier" verifier params
    let signer : Signer := ⟨nonceV, ts⟩
    let sp := signerSign signer c.consumerSecret "" req2 params
    let params := valuesAdd "oauth_signature" sp.1 sp.2
    .ok (params, { req2 with header := headerAdd "Authorization" (formatOAuthHeader params) req2.header })

/-- `Config.AccessToken` response handling (lines 190–206): like the
request-token step but with no callback-confirmation check. -/
def accessTokenRespond (status : Nat) (body : String) : Except String (String × String) :=
  if status ≠ 200 && status ≠ 201 then
    .error ("oauth1: Server returned unexpected status " ++ toString status)
  else
    match parseQuery body with
    | .error e => .error e
    | .ok values =>
      let accessToken := valuesGet "oauth_token" values
      let accessSecret := valuesGet "oauth_token_secret" values
      if accessToken == "" || accessSecret == "" then
        .error "oauth1: Response missing oauth_token or oauth_token_secret"
      else .ok (accessToken, accessSecret)

/-! ## The signing transport (`Transport.RoundTrip`, `cloneRequest`) -/

/-- The credential fields of `Transport` (the base `RoundTripper` it
delegates to is outside the model). -/
structure Transport where
  consumerKey : String
  consumerSecret : String
  accessToken : String
  accessSecret : String

/-- `cloneRequest`: a shallow struct copy with a deep copy of the header
map.  At the value level this is the identity; the deep copy is exactly
what lets the embedding add a header to the clone without touching the
original, while the body field still aliases the original reader object
(mirrored in `transportRoundTrip`). -/
def cloneRequest (req : Request) : Request := req

/-- Does `prepareParams` drain the request's body reader? -/
def readsBody (r : Request) : Bool :=
  r.body.isSome && headerGet "Content-Type" r.header == "application/x-www-form-urlencoded"

/-- `Transport.RoundTrip` up to the delegation to the base transport:
clone, prepare parameters (which mutates the original request's body
reader), add `oauth_token`, sign with the consumer secret and the access
secret, and attach the `Authorization` header to the clone.  Returns the
original request's final state together with the sent clone (or the
error, surfaced before any send).  The clone's body field still points at
the reader `prepareParams` drained — the original got a fresh reader, the
clone did not — which the embedding records by marking the clone's body
consumed. -/
def transportRoundTrip (t : Transport) (req : Request) (nonceV : String) (ts : Int) :
    Request × Except String Request :=
  let req2 := cloneRequest req
  match prepareParams req t.consumerKey with
  | (.error e, reqAfter) => (reqAfter, .error e)
  | (.ok params, reqAfter) =>
    let req2 :=
      if readsBody req then
        { req2 with body := req.body.map (fun b => ⟨b.content, true⟩) }
      else req2
    let params := valuesAdd "oauth_token" t.accessToken params
    let signer : Signer := ⟨nonceV, ts⟩
    let sp := signerSign signer t.consumerSecret t.accessSecret reqAfter params
    let params := valuesAdd "oauth_signature" sp.1 sp.2
    (reqAfter, .ok { req2 with header := headerAdd "Authorization" (formatOAuthHeader params) req2.header })

/-! ## Reference fixtures (from `reference_test.go`) and small helpers -/

/-- The Twitter sign-in configuration of the reference tests. -/
def twitterConfig : Config :=
  ⟨"cChZNFj6T5R0TigYB9yd1w", "L8qq9PZyRg6ieKGEKhZolGC0vJWLw8iEJ88DRdyOg",
   "http://localhost/sign-in-with-twitter/",
   ⟨⟨"https", "api.twitter.com", "/oauth/request_token", ""⟩,
    ⟨"https", "api.twitter.com", "/oauth/authorize", ""⟩,
    ⟨"https", "api.twitter.com", "/oauth/access_token", ""⟩⟩⟩

/-- The `oauth_signature` a signed-request construction produced (or the
error it failed with). -/
def sigOf (r : Except String (Values × Request)) : String :=
  match r with
  | .ok p => valuesGet "oauth_signature" p.1
  | .error e => e

/-- `strings.Join` of two pieces is plain concatenation around the
separator. -/
theorem goJoin_two (sep a b : String) : goJoin sep [a, b] = a ++ sep ++ b := by
  apply String.ext
  simp [goJoin, joinList, String.data_append]

/-- `strings.Join` of three pieces. -/
theorem goJoin_three (sep a b c : String) :
    goJoin sep [a, b, c] = a ++ sep ++ b ++ sep ++ c := by
  apply String.ext
  simp [goJoin, joinList, String.data_append]

/-! ## C2 — the signing formula and the reference vector -/

/-- **C2**: for every consumer secret, token secret and signing context,
`Signer.Sign` returns the base64 encoding of the HMAC-SHA1 digest of the
UTF-8 bytes of the base string under the key
`consumerSecret ++ "&" ++ tokenSecret` (concatenation, no
percent-encoding); and on the fixed Twitter reference inputs (consumer
secret `L8qq9…`, empty token secret, POST to the request-token URL, nonce
`ea9ec8429b68d6b77cd5600adbbb0456`, timestamp `1318467427`, consumer key
`cChZNFj6T5R0TigYB9yd1w`, `oauth_callback`
`http://localhost/sign-in-with-twitter/`) the produced signature is
`F1Li3tvehgcraF8DMJ7OyxO4w9Y=`. -/
theorem sign_is_hmacSha1_base64 :
    (∀ (s : Signer) (cs ts : String) (req : Request) (params : Values),
      (signerSign s cs ts req params).1 =
        base64Encode (hmacSha1 (strBytes (cs ++ "&" ++ ts))
          (strBytes (signerBase s req params).1))) ∧
    sigOf (requestTokenRequest twitterConfig "ea9ec8429b68d6b77cd5600adbbb0456" 1318467427) =
      "F1Li3tvehgcraF8DMJ7OyxO4w9Y=" := by
  constructor
  · intro s cs ts req params
    simp only [signerSign, goJoin_two]
  · decide

/-! ## C1 — `AccessToken` ignores the request-token secret -/

/-- The access-token request as the spec describes it: identical to
`accessTokenRequest` but with `Signer.Sign` receiving `requestSecret` as
the token secret ("signed with consumer credentials and the request-token
secret").  This is also what the repository's own
`TestTwitterAccessTokenAuthHeader` builds by hand.  It exists to exhibit
the divergence of the code from that description. -/
def accessTokenRequestPerSpec (c : Config) (requestToken requestSecret verifier : String)
    (nonceV : String) (ts : Int) : Except String (Values × Request) :=
  let req : Request := ⟨"POST", c.endpoint.accessTokenURL, [], none⟩
  match prepareParams req c.consumerKey with
  | (.error e, _) => .error e
  | (.ok params, req2) =>
    let params := valuesAdd "oauth_token" requestToken params
    let params := valuesAdd "oauth_verifier" verifier params
    let signer : Signer := ⟨nonceV, ts⟩
    let sp := signerSign signer c.consumerSecret requestSecret req2 params
    let params := valuesAdd "oauth_signature" sp.1 sp.2
    .ok (params, { req2 with header := headerAdd "Authorization" (formatOAuthHeader params) req2.header })

/-- **C1** (code bug): `Config.AccessToken` signs with an empty token
secret — the `requestSecret` argument never reaches the signing key.  The
result is invariant under changing `requestSecret`; on the repository's
own access-token reference inputs the code produces
`eLn5QjdCqHdlBEvOogMeGuRxW4k=`, whereas signing with the request-token
secret (as the spec and `TestTwitterAccessTokenAuthHeader` prescribe)
produces the documented `39cipBtIOHEEnybAR4sATQTpl2I=`. -/
theorem accessToken_ignores_request_secret :
    (∀ (c : Config) (tok sec sec2 ver n : String) (ts : Int),
      accessTokenRequest c tok sec ver n ts = accessTokenRequest c tok sec2 ver n ts) ∧
    sigOf (accessTokenRequest twitterConfig "NPcudxy0yU5T3tBzho7iCotZ3cnetKwcTIRlX0iwRl0"
      "veNRnAWe6inFuo8o2u8SLLZLjolYDmDP7SzL0YfYI" "uw7NjWHT6OJ1MpJOXsHfNxoAhPKpgI8BlYDhxEjIBY"
      "a9900fe68e2573b27a37f10fbad6a755" 1318467427) = "eLn5QjdCqHdlBEvOogMeGuRxW4k=" ∧
    sigOf (accessTokenRequestPerSpec twitterConfig "NPcudxy0yU5T3tBzho7iCotZ3cnetKwcTIRlX0iwRl0"
      "veNRnAWe6inFuo8o2u8SLLZLjolYDmDP7SzL0YfYI" "uw7NjWHT6OJ1MpJOXsHfNxoAhPKpgI8BlYDhxEjIBY"
      "a9900fe68e2573b27a37f10fbad6a755" 1318467427) = "39cipBtIOHEEnybAR4sATQTpl2I=" ∧
    ("eLn5QjdCqHdlBEvOogMeGuRxW4k=" : String) ≠ "39cipBtIOHEEnybAR4sATQTpl2I=" :=
  ⟨fun _ _ _ _ _ _ _ => rfl, by decide, by decide, by decide⟩

/-! ## C6 — `RequestToken` response validation -/

/-- **C6**: `Config.RequestToken`'s response handling.  A status other
than 200/201 fails with the unexpected-status error carrying the code; on
a parsed form body, an empty/absent `oauth_token` or `oauth_token_secret`
fails with the missing-credentials error; a present pair with
`oauth_callback_confirmed ≠ "true"` fails with the
callback-not-confirmed error; when all three checks pass the token/secret
pair is returned. -/
theorem requestToken_response_validation :
    ∀ (status : Nat) (body : String),
      ((status ≠ 200 ∧ status ≠ 201) →
        requestTokenRespond status body =
          .error ("oauth1: Server returned unexpected status " ++ toString status)) ∧
      (∀ vs : Values, (status = 200 ∨ status = 201) → parseQuery body = .ok vs →
        (valuesGet "oauth_token" vs = "" ∨ valuesGet "oauth_token_secret" vs = "") →
        requestTokenRespond status body =
          .error "oauth1: Response missing oauth_token or oauth_token_secret") ∧
      (∀ vs : Values, (status = 200 ∨ status = 201) → parseQuery body = .ok vs →
        valuesGet "oauth_token" vs ≠ "" → valuesGet "oauth_token_secret" vs ≠ "" →
        valuesGet "oauth_callback_confirmed" vs ≠ "true" →
        requestTokenRespond status body =
          .error "oauth1: oauth_callback_confirmed was not true") ∧
      (∀ vs : Values, (status = 200 ∨ status = 201) → parseQuery body = .ok vs →
        valuesGet "oauth_token" vs ≠ "" → valuesGet "oauth_token_secret" vs ≠ "" →
        valuesGet "oauth_callback_confirmed" vs = "true" →
        requestTokenRespond status body =
          .ok (valuesGet "oauth_token" vs, valuesGet "oauth_token_secret" vs)) := by
  intro status body
  refine ⟨?_, ?_, ?_, ?_⟩
  · intro h
    simp only [requestTokenRespond]
    rw [if_pos (by simp [h.1, h.2])]
  · intro vs hst hparse hempty
    simp only [requestTokenRespond]
    rw [if_neg (by rcases hst with h | h <;> simp [h]), hparse]
    rcases hempty with h | h <;> simp [h]
  · intro vs hst hparse h1 h2 h3
    simp only [requestTokenRespond]
    rw [if_neg (by rcases hst with h | h <;> simp [h]), hparse]
    simp [h1, h2, h3]
  · intro vs hst hparse h1 h2 h3
    simp only [requestTokenRespond]
    rw [if_neg (by rcases hst with h | h <;> simp [h]), hparse]
    simp [h1, h2, h3]

/-- Witness for C6: all four branches hit at concrete responses. -/
theorem requestToken_response_validation_witness :
    requestTokenRespond 404 "" = .error "oauth1: Server returned unexpected status 404" ∧
    requestTokenRespond 200 "oauth_token=t" =
      .error "oauth1: Response missing oauth_token or oauth_token_secret" ∧
    requestTokenRespond 200 "oauth_token=t&oauth_token_secret=s" =
      .error "oauth1: oauth_callback_confirmed was not true" ∧
    requestTokenRespond 201 "oauth_token=t&oauth_token_secret=s&oauth_callback_confirmed=true" =
      .ok ("t", "s") :=
  ⟨(requestToken_response_validation 404 "").1 ⟨by decide, by decide⟩,
   (requestToken_response_validation 200 "oauth_token=t").2.1
     [("oauth_token", "t")] (Or.inl rfl) (by rfl) (Or.inr rfl),
   (requestToken_response_validation 200 "oauth_token=t&oauth_token_secret=s").2.2.1
     [("oauth_token", "t"), ("oauth_token_secret", "s")] (Or.inl rfl) (by rfl)
     (by decide) (by decide) (by decide),
   (requestToken_response_validation 201
       "oauth_token=t&oauth_token_secret=s&oauth_callback_confirmed=true").2.2.2
     [("oauth_token", "t"), ("oauth_token_secret", "s"), ("oauth_callback_confirmed", "true")]
     (Or.inr rfl) (by rfl) (by decide) (by decide) rfl⟩

/-! ## C10 — shape of generated nonces -/

/-- A character the query escaper leaves alone: an ASCII byte in Go's
unreserved set. -/
def plainCharB (c : Char) : Bool := c.toNat < 128 && isUnreservedByte c.toNat

/-- Escaping leaves a string of plain characters unchanged (character-list
level). -/
theorem escBytes_plain (l : List Char) (h : ∀ c ∈ l, plainCharB c = true) :
    (l.flatMap utf8EncodeChar).flatMap escByte = l := by
  induction l with
  | nil => rfl
  | cons c cs ih =>
    have hc := h c (List.mem_cons_self c cs)
    have hlt : c.toNat < 128 := by
      have := And.left (by simpa [plainCharB] using hc)
      omega
    have hun : isUnreservedByte c.toNat = true := by
      simpa [plainCharB] using And.right (by simpa [plainCharB] using hc)
    have henc : utf8EncodeChar c = [c.toNat] := by
      simp only [utf8EncodeChar]
      rw [if_pos (by omega)]
    have hesc : escByte c.toNat = [Char.ofNat c.toNat] := by
      simp only [escByte]
      rw [if_pos hun]
    rw [List.flatMap_cons, List.flatMap_append, henc]
    simp only [List.flatMap_cons, List.flatMap_nil, List.append_nil, hesc, Char.ofNat_toNat]
    rw [ih (fun d hd => h d (List.mem_cons_of_mem c hd))]
    rfl

/-- Escaping leaves a string of plain characters unchanged. -/
theorem queryEscape_plain (s : String) (h : ∀ c ∈ s.data, plainCharB c = true) :
    queryEscape s = s := by
  apply String.ext
  show ((s.data.flatMap utf8EncodeChar).flatMap escByte) = s.data
  exact escBytes_plain s.data h

/-- Every hex digit the nonce renderer emits is one of the sixteen
lowercase hex characters. -/
theorem hexLowerDigit_mem (n : Nat) : hexLowerDigit n ∈ "0123456789abcdef".data := by
  by_cases h : n < 16
  · interval_cases n <;> decide
  · simp only [hexLowerDigit]
    rw [List.getD_eq_default]
    · decide
    · simpa using Nat.le_of_not_lt h

/-- `md5Compress` always returns a 4-word state. -/
theorem md5Compress_length (h block : List Nat) : (md5Compress h block).length = 4 := rfl

/-- The MD5 word fold keeps a 4-word state. -/
theorem md5Fold_length (blocks : List (List Nat)) (init : List Nat) (h : init.length = 4) :
    (blocks.foldl md5Compress init).length = 4 := by
  induction blocks generalizing init with
  | nil => exact h
  | cons b bs ih => exact ih (md5Compress init b) (md5Compress_length init b)

/-- Four words flat-map through `leBytes4` to 16 bytes. -/
theorem flatMap_leBytes4_length4 (l : List Nat) (h : l.length = 4) :
    (l.flatMap leBytes4).length = 16 := by
  rcases l with _ | ⟨a, _ | ⟨b, _ | ⟨c, _ | ⟨d, _ | ⟨e, t⟩⟩⟩⟩⟩ <;>
    simp_all [leBytes4]

/-- MD5 digests are 16 bytes, whatever the input. -/
theorem md5_length (bs : List Nat) : (md5 bs).length = 16 :=
  flatMap_leBytes4_length4 _ (md5Fold_length _ _ rfl)

/-- `hexLower` renders each byte as two characters. -/
theorem hexLower_length (bs : List Nat) : (hexLower bs).length = 2 * bs.length := by
  show (bs.flatMap fun b => [hexLowerDigit ((b >>> 4) &&& 0xF), hexLowerDigit (b &&& 0xF)]).length
      = 2 * bs.length
  induction bs with
  | nil => rfl
  | cons x xs ih => rw [List.flatMap_cons, List.length_append, ih]; simp; omega

/-- Every character `hexLower` emits is a lowercase hex digit. -/
theorem hexLower_chars (bs : List Nat) :
    ∀ c ∈ (hexLower bs).data, c ∈ "0123456789abcdef".data := by
  intro c hc
  show c ∈ _
  have : c ∈ bs.flatMap fun b => [hexLowerDigit ((b >>> 4) &&& 0xF), hexLowerDigit (b &&& 0xF)] := hc
  rcases List.mem_flatMap.mp this with ⟨b, _, hcb⟩
  simp only [List.mem_cons, List.not_mem_nil, or_false] at hcb
  rcases hcb with rfl | rfl
  · exact hexLowerDigit_mem _
  · exact hexLowerDigit_mem _

/-- **C10**: every generated nonce — the lowercase-hex rendering of the
MD5 of the decimal Unix time followed by the decimal random 63-bit draw —
is a 32-character string of lowercase hexadecimal digits, and such a
string is left unchanged by `url.QueryEscape` (no character of it ever
needs percent-encoding in the header or the base string). -/
theorem nonce_shape :
    ∀ (now : Int) (r : Nat),
      (nonceFromSeed now r).length = 32 ∧
      (∀ c ∈ (nonceFromSeed now r).data, c ∈ "0123456789abcdef".data) ∧
      queryEscape (nonceFromSeed now r) = nonceFromSeed now r := by
  intro now r
  have hchars := hexLower_chars (md5 (strBytes (toString now ++ toString r)))
  refine ⟨?_, hchars, ?_⟩
  · show (hexLower (md5 (strBytes (toString now ++ toString r)))).length = 32
    rw [hexLower_length, md5_length]
  · apply queryEscape_plain
    intro c hc
    have hhex : ∀ d ∈ "0123456789abcdef".data, plainCharB d = true := by decide
    exact hhex c (hchars c hc)

/-! ## C9 — the signing transport leaves the original request intact -/

/-- The request state `prepareParams` hands back, in closed form: only
the body reader is ever replaced (restored on success, left drained on a
body-parse failure). -/
theorem prepareParams_snd (r : Request) (ck : String) :
    (prepareParams r ck).2 =
      match r.body with
      | none => r
      | some b =>
        if headerGet "Content-Type" r.header == "application/x-www-form-urlencoded" then
          match parseQuery (if b.consumed then "" else b.content) with
          | .error _ => { r with body := some ⟨b.content, true⟩ }
          | .ok _ => { r with body := some ⟨(if b.consumed then "" else b.content), false⟩ }
        else r := by
  obtain ⟨m, u, h, b⟩ := r
  cases b with
  | none => rfl
  | some bd =>
    simp only [prepareParams]
    by_cases hct : (headerGet "Content-Type" h == "application/x-www-form-urlencoded") = true
    · rw [if_pos hct]
      cases hpq : parseQuery (if bd.consumed then "" else bd.content) <;> simp [hct, hpq]
    · rw [if_neg hct]
      simp [hct]

/-- On a body-parse failure `prepareParams` surfaces exactly that error. -/
theorem prepareParams_fst_err (r : Request) (ck : String) (b : Body) (e : String)
    (hb : r.body = some b)
    (hct : (headerGet "Content-Type" r.header == "application/x-www-form-urlencoded") = true)
    (hpq : parseQuery (if b.consumed then "" else b.content) = .error e) :
    (prepareParams r ck).1 = .error e := by
  obtain ⟨m, u, h, bo⟩ := r
  cases bo with
  | none => cases hb
  | some bd =>
    cases hb
    simp only [prepareParams]
    rw [if_pos hct, hpq]

/-- `prepareParams` only ever touches the request's body reader: method,
URL and header map come back unchanged. -/
theorem prepareParams_fields (r : Request) (ck : String) :
    (prepareParams r ck).2.method = r.method ∧ (prepareParams r ck).2.url = r.url ∧
    (prepareParams r ck).2.header = r.header := by
  rw [prepareParams_snd]
  cases r.body with
  | none => exact ⟨rfl, rfl, rfl⟩
  | some bd =>
    dsimp only
    split
    · split <;> exact ⟨rfl, rfl, rfl⟩
    · exact ⟨rfl, rfl, rfl⟩

/-- When the body reader is fresh and no error occurs, `prepareParams`
hands the request back in its original state (the reader is restored). -/
theorem prepareParams_ok_state (r : Request) (ck : String)
    (hfresh : ∀ b, r.body = some b → b.consumed = false) :
    ∀ vs, (prepareParams r ck).1 = .ok vs → (prepareParams r ck).2 = r := by
  intro vs hok
  rw [prepareParams_snd]
  cases hb : r.body with
  | none => rfl
  | some bd =>
    dsimp only
    by_cases hct : (headerGet "Content-Type" r.header == "application/x-www-form-urlencoded") = true
    · rw [if_pos hct]
      cases hpq : parseQuery (if bd.consumed then "" else bd.content) with
      | error e =>
        rw [prepareParams_fst_err r ck bd e hb hct hpq] at hok
        cases hok
      | ok ps =>
        have hc : bd.consumed = false := hfresh bd hb
        obtain ⟨m, u, h, bo⟩ := r
        cases bo with
        | none => cases hb
        | some bd2 =>
          cases hb
          obtain ⟨content, consumed⟩ := bd
          cases hc
          simp
    · rw [if_neg hct]

/-- **C9**: `Transport.RoundTrip` never touches the caller's header map;
on the success path the original request comes back exactly as it went in
(given a fresh body reader), and the sent request is a clone of the
original — same method and URL — with the `Authorization` header added to
a deep-copied header map. -/
theorem roundTrip_frame :
    ∀ (t : Transport) (req : Request) (n : String) (ts : Int),
      (transportRoundTrip t req n ts).1.header = req.header ∧
      (∀ sent, (transportRoundTrip t req n ts).2 = .ok sent →
        ∃ v, sent.header = headerAdd "Authorization" v req.header ∧
          sent.method = req.method ∧ sent.url = req.url) ∧
      ((∀ b, req.body = some b → b.consumed = false) →
        ∀ sent, (transportRoundTrip t req n ts).2 = .ok sent →
        (transportRoundTrip t req n ts).1 = req) := by
  intro t req n ts
  have hf := prepareParams_fields req t.consumerKey
  have hok := prepareParams_ok_state req t.consumerKey
  simp only [transportRoundTrip, cloneRequest]
  rcases hpp : prepareParams req t.consumerKey with ⟨res, reqAfter⟩
  rw [hpp] at hf hok
  cases res with
  | error e =>
    refine ⟨hf.2.2, ?_, ?_⟩
    · intro sent hsent; cases hsent
    · intro _ sent hsent; cases hsent
  | ok params =>
    refine ⟨hf.2.2, ?_, ?_⟩
    · intro sent hsent
      injection hsent with hsent
      subst hsent
      by_cases hrb : readsBody req = true
      · rw [if_pos hrb]; exact ⟨_, rfl, rfl, rfl⟩
      · rw [if_neg hrb]; exact ⟨_, rfl, rfl, rfl⟩
    · intro hfresh sent _
      exact hok hfresh params rfl

/-! ## C3 — the shape of the signature base string -/

/-- Remove `suf` from the end of `l` when present. -/
def dropSuffixIf (suf l : List Char) : List Char :=
  if suf.length ≤ l.length && l.drop (l.length - suf.length) == suf then
    l.take (l.length - suf.length)
  else l

/-- The base string as claim C3 words it (for comparison with
`signerBase`): method uppercased, the URL normalized *with trailing
default ports removed*, the sorted parameter string, each of the three
segments percent-encoded once more and joined by `&`. -/
def claimedBaseC3 (s : Signer) (req : Request) (params : Values) : String :=
  let params := valuesAdd "oauth_nonce" s.nonce params
  let params := valuesAdd "oauth_timestamp" (toString s.timestampUnix) params
  let host := String.mk (dropSuffixIf
    (if req.url.scheme == "https" then ":443".data
     else if req.url.scheme == "http" then ":80".data else []) req.url.host.data)
  let baseURL : GoURL := ⟨req.url.scheme, host, req.url.path, ""⟩
  goJoin "&" [queryEscape (goToUpper req.method), queryEscape (urlString baseURL),
    queryEscape (normalizeSpace (valuesEncode params))]

/-- Counterexample to C3: `Signer.Base` keeps an explicit `:443` in the
`https` URL — no default-port normalization happens — so the produced
base string differs from the claimed one. -/
theorem base_default_port_counterexample :
    (signerBase ⟨"n", 1⟩ ⟨"get", ⟨"https", "example.com:443", "/a", ""⟩, [], none⟩ []).1 =
      "GET&https%3A%2F%2Fexample.com%3A443%2Fa&oauth_nonce%3Dn%26oauth_timestamp%3D1" ∧
    claimedBaseC3 ⟨"n", 1⟩ ⟨"get", ⟨"https", "example.com:443", "/a", ""⟩, [], none⟩ [] =
      "GET&https%3A%2F%2Fexample.com%2Fa&oauth_nonce%3Dn%26oauth_timestamp%3D1" ∧
    claimedBaseC3 ⟨"n", 1⟩ ⟨"get", ⟨"https", "example.com:443", "/a", ""⟩, [], none⟩ [] ≠
      (signerBase ⟨"n", 1⟩ ⟨"get", ⟨"https", "example.com:443", "/a", ""⟩, [], none⟩ []).1 := by
  refine ⟨by decide, by decide, by decide⟩

/-- **C3 (amended)**: the base string is the uppercased method, the
query-stripped URL (host and port kept verbatim — no default-port
removal) percent-encoded once more, and the encoded parameter string
(with the nonce and timestamp appended, `+` rewritten to `%20`)
percent-encoded once more, joined by `&`; the method segment is inserted
as-is (uppercasing only), which coincides with its percent-encoding for
the unreserved characters of standard HTTP method names. -/
theorem base_structure (s : Signer) (req : Request) (p : Values) :
    (signerBase s req p).1 =
      goToUpper req.method ++ "&" ++
      queryEscape (urlString { req.url with rawQuery := "" }) ++ "&" ++
      queryEscape (normalizeSpace (valuesEncode
        (p ++ [("oauth_nonce", s.nonce), ("oauth_timestamp", toString s.timestampUnix)]))) := by
  simp only [signerBase, valuesAdd, goJoin_three, List.append_assoc, List.cons_append,
    List.nil_append]

/-! ## C4 / C5 / C7 — counterexamples -/

/-- Counterexample to C4: the parameter string orders pairs by *raw* key
(`sort.Strings` runs before escaping) — keys `":"` and `"0"` come out as
`0=w&%3A=v`, not sorted by encoded key, since the encoded `%3A` sorts
before `0` — and two values of one key keep insertion order `y, x`
rather than being sorted by encoded value. -/
theorem encode_order_counterexample :
    goSplit "&" (normalizeSpace (valuesEncode [(":", "v"), ("0", "w")])) = ["0=w", "%3A=v"] ∧
    charsLtB "%3A".data "0".data = true ∧
    valuesEncode [("a", "y"), ("a", "x")] = "a=y&a=x" ∧
    charsLtB "x".data "y".data = true := by
  refine ⟨by decide, by decide, by decide, by decide⟩

/-- The parameter list a `prepareParams` run produced (`[]` on error;
the callers bail out before using it in that case). -/
def paramsOf (pr : Except String Values × Request) : Values :=
  match pr.1 with
  | .ok v => v
  | .error _ => []

/-- Counterexample to C5: a URL query value is percent-encoded *twice* in
the string entering the hash and the header: for `?q=%21` (the value is
`!`), the parameter string carries `q=%2521` — the once-encoded `q=%21`
appears nowhere. -/
theorem query_value_double_encoded_counterexample :
    goSplit "&" (normalizeSpace (valuesEncode
        (paramsOf (prepareParams ⟨"GET", ⟨"http", "h", "/", "q=%21"⟩, [], none⟩ "ck")))) =
      ["oauth_consumer_key=ck", "oauth_signature_method=HMAC-SHA1", "oauth_version=1.0",
       "q=%2521"] ∧
    normalizeSpace (queryEscape "!") = "%21" ∧
    ("q=%2521" : String) =
      "q=" ++ normalizeSpace (queryEscape (normalizeSpace (queryEscape "!"))) ∧
    ("q=" ++ normalizeSpace (queryEscape "!")) ∉
      goSplit "&" (normalizeSpace (valuesEncode
        (paramsOf (prepareParams ⟨"GET", ⟨"http", "h", "/", "q=%21"⟩, [], none⟩ "ck")))) := by
  refine ⟨by decide, by decide, by decide, by decide⟩

/-- Counterexample to C7: `Signer.Base` adds `oauth_nonce` and
`oauth_timestamp` into the caller's parameter map, so a second
invocation on that same (mutated) map yields a different base string —
state is carried between calls through the `params` argument. -/
theorem base_repeat_counterexample :
    (signerBase ⟨"n", 1⟩ ⟨"GET", ⟨"http", "h", "/", ""⟩, [], none⟩ []).2 =
      [("oauth_nonce", "n"), ("oauth_timestamp", "1")] ∧
    (signerBase ⟨"n", 1⟩ ⟨"GET", ⟨"http", "h", "/", ""⟩, [], none⟩ []).1 =
      "GET&http%3A%2F%2Fh%2F&oauth_nonce%3Dn%26oauth_timestamp%3D1" ∧
    (signerBase ⟨"n", 1⟩ ⟨"GET", ⟨"http", "h", "/", ""⟩, [], none⟩
        ((signerBase ⟨"n", 1⟩ ⟨"GET", ⟨"http", "h", "/", ""⟩, [], none⟩ []).2)).1 =
      "GET&http%3A%2F%2Fh%2F&oauth_nonce%3Dn%26oauth_nonce%3Dn%26oauth_timestamp%3D1%26oauth_timestamp%3D1" ∧
    (signerBase ⟨"n", 1⟩ ⟨"GET", ⟨"http", "h", "/", ""⟩, [], none⟩
        ((signerBase ⟨"n", 1⟩ ⟨"GET", ⟨"http", "h", "/", ""⟩, [], none⟩ []).2)).1 ≠
      (signerBase ⟨"n", 1⟩ ⟨"GET", ⟨"http", "h", "/", ""⟩, [], none⟩ []).1 := by
  refine ⟨by decide, by decide, by decide, by decide⟩

/-! ## The `sort.Strings` order and the structure of `Values.Encode` -/

/-- `charsLtB` is irreflexive. -/
theorem charsLtB_irrefl : ∀ l, charsLtB l l = false
  | [] => rfl
  | c :: cs => by simp [charsLtB, lt_irrefl, charsLtB_irrefl cs]

/-- `charsLtB` is asymmetric. -/
theorem charsLtB_asymm : ∀ a b, charsLtB a b = true → charsLtB b a = false
  | [], [], h => by cases h
  | [], _ :: _, _ => rfl
  | _ :: _, [], h => by cases h
  | a :: as, b :: bs, h => by
    by_cases hab : a < b
    · have hba : ¬ b < a := lt_asymm hab
      simp [charsLtB, hba, hab]
    · by_cases hba : b < a
      · simp [charsLtB, hab, hba] at h
      · simp only [charsLtB, if_neg hab, if_neg hba] at h
        simp [charsLtB, hab, hba, charsLtB_asymm as bs h]

/-- `charsLtB` is transitive. -/
theorem charsLtB_trans : ∀ a b c, charsLtB a b = true → charsLtB b c = true →
    charsLtB a c = true
  | [], [], _, h, _ => by cases h
  | [], _ :: _, [], _, h2 => by cases h2
  | [], _ :: _, _ :: _, _, _ => rfl
  | _ :: _, [], _, h, _ => by cases h
  | _ :: _, _ :: _, [], _, h2 => by cases h2
  | a :: as, b :: bs, c :: cs, h, h2 => by
    by_cases hab : a < b
    · by_cases hbc : b < c
      · simp [charsLtB, lt_trans hab hbc]
      · by_cases hcb : c < b
        · simp [charsLtB, hbc, hcb] at h2
        · have hbc2 : b = c := le_antisymm (le_of_not_lt hcb) (le_of_not_lt hbc)
          subst hbc2
          simp [charsLtB, hab]
    · by_cases hba : b < a
      · simp [charsLtB, hab, hba] at h
      · have hab2 : a = b := le_antisymm (le_of_not_lt hba) (le_of_not_lt hab)
        subst hab2
        simp only [charsLtB, if_neg hab, if_neg hba] at h
        by_cases hac : a < c
        · simp [charsLtB, hac]
        · by_cases hca : c < a
          · simp [charsLtB, hac, hca] at h2
          · simp only [charsLtB, if_neg hac, if_neg hca] at h2 ⊢
            exact charsLtB_trans as bs cs h h2

/-- Two lists neither of which is below the other are equal. -/
theorem charsLtB_eq_of_not : ∀ a b, charsLtB a b = false → charsLtB b a = false → a = b
  | [], [], _, _ => rfl
  | [], _ :: _, h, _ => by cases h
  | _ :: _, [], _, h2 => by cases h2
  | a :: as, b :: bs, h, h2 => by
    by_cases hab : a < b
    · simp [charsLtB, hab] at h
    · by_cases hba : b < a
      · simp [charsLtB, hba, lt_asymm hba] at h2
      · have hab2 : a = b := le_antisymm (le_of_not_lt hba) (le_of_not_lt hab)
        subst hab2
        simp only [charsLtB, if_neg hab, lt_irrefl, if_neg (lt_irrefl a)] at h h2
        rw [charsLtB_eq_of_not as bs h h2]

instance : IsTotal String strLe := by
  constructor
  intro a b
  by_cases h : charsLtB b.data a.data = true
  · exact Or.inr (charsLtB_asymm _ _ h)
  · exact Or.inl (by simpa using h)

instance : IsTrans String strLe := by
  constructor
  intro a b c h1 h2
  show charsLtB c.data a.data = false
  cases hca : charsLtB c.data a.data with
  | false => rfl
  | true =>
    exfalso
    cases hab : charsLtB a.data b.data with
    | true =>
      have := charsLtB_trans _ _ _ hca hab
      rw [h2] at this
      cases this
    | false =>
      have hab2 : a.data = b.data := charsLtB_eq_of_not _ _ hab h1
      rw [hab2] at hca
      rw [h2] at hca
      cases hca

instance : IsAntisymm String strLe := by
  constructor
  intro a b h1 h2
  exact String.ext (charsLtB_eq_of_not _ _ h2 h1)

/-- `sortStrings` permutes its input. -/
theorem sortStrings_perm (l : List String) : (sortStrings l).Perm l :=
  List.perm_insertionSort strLe l

/-- `sortStrings` sorts. -/
theorem sortStrings_sorted (l : List String) : List.Sorted strLe (sortStrings l) :=
  List.sorted_insertionSort strLe l

/-- The sorted key list keeps exactly the distinct keys. -/
theorem mem_sortedKeys (v : Values) (k : String) :
    k ∈ sortedKeys v ↔ k ∈ v.map Prod.fst := by
  rw [sortedKeys, (sortStrings_perm _).mem_iff, List.mem_dedup]

/-- The sorted key list has no duplicates. -/
theorem sortedKeys_nodup (v : Values) : (sortedKeys v).Nodup :=
  ((sortStrings_perm _).symm).nodup (List.nodup_dedup _)

/-- The pairs of `Values.Encode`'s iteration, keyed bucket by bucket. -/
def groupedPairs (v : Values) : Values :=
  (sortedKeys v).flatMap (fun k => v.filter (fun kv => kv.1 == k))

/-- Congruence for `flatMap` under pointwise equality on members. -/
theorem flatMap_congr_mem {α β : Type _} (l : List α) (f g : α → List β)
    (h : ∀ a ∈ l, f a = g a) : l.flatMap f = l.flatMap g := by
  induction l with
  | nil => rfl
  | cons a as ih =>
    rw [List.flatMap_cons, List.flatMap_cons, h a (List.mem_cons_self a as),
      ih (fun b hb => h b (List.mem_cons_of_mem a hb))]

/-- Iterating duplicate-free keys over their buckets permutes any pair
list whose keys all occur in the key list. -/
theorem buckets_perm :
    ∀ (keys : List String), keys.Nodup → ∀ v : Values, (∀ kv ∈ v, kv.1 ∈ keys) →
      (keys.flatMap (fun k => v.filter (fun kv => kv.1 == k))).Perm v := by
  intro keys
  induction keys with
  | nil =>
    intro _ v hv
    cases v with
    | nil => exact List.Perm.refl _
    | cons kv rest => cases hv kv (List.mem_cons_self kv rest)
  | cons k ks ih =>
    intro hnd v hv
    rw [List.flatMap_cons]
    have hrest : ks.flatMap (fun k2 => v.filter (fun kv => kv.1 == k2)) =
        ks.flatMap (fun k2 => (v.filter (fun kv => !(kv.1 == k))).filter
          (fun kv => kv.1 == k2)) := by
      apply flatMap_congr_mem
      intro k2 hk2
      rw [List.filter_filter]
      apply List.filter_congr
      intro kv _
      by_cases hkv : kv.1 = k2
      · have hne : ¬ k2 = k := fun hk => (List.nodup_cons.mp hnd).1 (hk ▸ hk2)
        simp [hkv, hne]
      · simp [hkv]
    rw [hrest]
    have hih := ih (List.nodup_cons.mp hnd).2 (v.filter (fun kv => !(kv.1 == k)))
      (by
        intro kv hkv
        rcases List.mem_filter.mp hkv with ⟨hmem, hkey⟩
        rcases List.mem_cons.mp (hv kv hmem) with h | h
        · rw [h] at hkey; simp at hkey
        · exact h)
    exact List.Perm.trans (List.Perm.append_left _ hih) (List.filter_append_perm _ v)

/-- `Values.Encode` iterates over a permutation of the parameter list:
every pair survives, with its multiplicity. -/
theorem groupedPairs_perm (v : Values) : (groupedPairs v).Perm v := by
  apply buckets_perm _ (sortedKeys_nodup v)
  intro kv hkv
  exact (mem_sortedKeys v kv.1).mpr (List.mem_map.mpr ⟨kv, hkv, rfl⟩)

/-- The encoded pieces are the grouped pairs, each rendered as
`escape k = escape v`. -/
theorem encodePieces_eq_map (v : Values) :
    encodePieces v =
      (groupedPairs v).map (fun kv => queryEscape kv.1 ++ "=" ++ queryEscape kv.2) := by
  rw [encodePieces, groupedPairs, List.map_flatMap]
  refine congrArg (List.flatMap (sortedKeys v)) (funext fun k => ?_)
  apply List.map_congr_left
  intro kv hkv
  have hk : kv.1 = k := by simpa using (List.mem_filter.mp hkv).2
  rw [hk]

/-! ## `strings.Split` inverts `strings.Join`

The header codec re-splits strings it just joined; these lemmas show the
split recovers the joined pieces whenever the separator's head character
does not occur in the pieces (true for every escaped piece: the escaper
never emits `&`, `=`, `,`, a space or a quote). -/

/-- A separator matches at its own occurrence. -/
theorem sepMatch_self_append : ∀ (sep l : List Char), sepMatch sep (sep ++ l) = true
  | [], _ => rfl
  | s :: ss, l => by simp [sepMatch, sepMatch_self_append ss l]

/-- A separator cannot match where its head character differs. -/
theorem sepMatch_head_ne (h : Char) (t : List Char) (c : Char) (rest : List Char)
    (hne : c ≠ h) : sepMatch (h :: t) (c :: rest) = false := by
  simp [sepMatch]
  intro he
  exact absurd he.symm hne

/-- `splitAux` ignores the exact fuel once it covers the input length
(non-empty separator): auxiliary strong induction on a length bound. -/
theorem splitAux_fuel_aux (h : Char) (t : List Char) :
    ∀ (n : Nat) (s : List Char), s.length ≤ n → ∀ (f1 f2 : Nat) (acc : List Char),
      s.length ≤ f1 → s.length ≤ f2 →
      splitAux (h :: t) f1 s acc = splitAux (h :: t) f2 s acc := by
  intro n
  induction n with
  | zero =>
    intro s hs f1 f2 acc _ _
    have hnil : s = [] := List.eq_nil_of_length_eq_zero (Nat.le_zero.mp hs)
    subst hnil
    cases f1 <;> cases f2 <;> rfl
  | succ n ih =>
    intro s hs f1 f2 acc h1 h2
    cases s with
    | nil => cases f1 <;> cases f2 <;> rfl
    | cons c rest =>
      cases f1 with
      | zero => simp at h1
      | succ a =>
        cases f2 with
        | zero => simp at h2
        | succ b =>
          simp only [splitAux]
          simp only [List.length_cons] at hs h1 h2
          by_cases hm : sepMatch (h :: t) (c :: rest) = true
          · rw [if_pos hm, if_pos hm]
            congr 1
            apply ih
            · simp only [List.length_drop, List.length_cons, List.length]
              omega
            · simp only [List.length_drop, List.length_cons, List.length]
              omega
            · simp only [List.length_drop, List.length_cons, List.length]
              omega
          · rw [if_neg hm, if_neg hm]
            apply ih <;> omega

/-- `splitAux` ignores the exact fuel once it covers the input length. -/
theorem splitAux_fuel (h : Char) (t : List Char) (s : List Char) (f1 f2 : Nat)
    (acc : List Char) (h1 : s.length ≤ f1) (h2 : s.length ≤ f2) :
    splitAux (h :: t) f1 s acc = splitAux (h :: t) f2 s acc :=
  splitAux_fuel_aux h t s.length s (Nat.le_refl _) f1 f2 acc h1 h2

/-- Scanning a chunk free of the separator head yields a single piece. -/
theorem splitAux_no_sep (h : Char) (t : List Char) :
    ∀ (s : List Char) (fuel : Nat) (acc : List Char), s.length ≤ fuel →
      (∀ c ∈ s, c ≠ h) → splitAux (h :: t) fuel s acc = [acc.reverse ++ s] := by
  intro s
  induction s with
  | nil =>
    intro fuel acc _ _
    cases fuel <;> simp [splitAux]
  | cons c rest ih =>
    intro fuel acc hf hs
    cases fuel with
    | zero => simp at hf
    | succ a =>
      simp only [splitAux]
      rw [if_neg (by
        rw [sepMatch_head_ne h t c rest (hs c (List.mem_cons_self c rest))]
        exact Bool.false_ne_true)]
      rw [ih a (c :: acc) (by simp at hf; omega)
        (fun d hd => hs d (List.mem_cons_of_mem c hd))]
      simp

/-- Scanning from an occurrence of the separator cuts exactly there. -/
theorem splitAux_at_sep (h : Char) (t : List Char) (hht : h ∉ t) :
    ∀ (p rest : List Char) (fuel : Nat) (acc : List Char),
      (p ++ (h :: t) ++ rest).length ≤ fuel → (∀ c ∈ p, c ≠ h) →
      splitAux (h :: t) fuel (p ++ (h :: t) ++ rest) acc =
        (acc.reverse ++ p) :: splitAux (h :: t) rest.length rest [] := by
  intro p
  induction p with
  | nil =>
    intro rest fuel acc hf _
    cases fuel with
    | zero => simp at hf
    | succ a =>
      simp only [List.nil_append, List.cons_append] at hf ⊢
      simp only [splitAux]
      rw [if_pos (by
        have := sepMatch_self_append (h :: t) rest
        simpa using this)]
      have hdrop : (t ++ rest).drop (h :: t).length.pred = rest := by
        simp only [List.length_cons, Nat.pred_succ]
        exact List.drop_left t rest
      simp only [List.length_cons, List.drop_succ_cons]
      rw [List.drop_left t rest]
      congr 1
      · simp
      · apply splitAux_fuel
        · simp only [List.length_append, List.length_cons] at hf
          omega
        · exact Nat.le_refl _
  | cons c p2 ih =>
    intro rest fuel acc hf hp
    cases fuel with
    | zero => simp at hf
    | succ a =>
      simp only [List.cons_append] at hf ⊢
      simp only [splitAux]
      rw [if_neg (by
        rw [sepMatch_head_ne h t c _ (hp c (List.mem_cons_self c p2))]
        exact Bool.false_ne_true)]
      rw [ih rest a (c :: acc) (by simp only [List.length_cons] at hf; omega)
        (fun d hd => hp d (List.mem_cons_of_mem c hd))]
      simp

/-- Splitting the join of pieces that avoid the separator head recovers
the pieces. -/
theorem splitAux_joinList (h : Char) (t : List Char) (hht : h ∉ t) :
    ∀ (parts : List (List Char)), parts ≠ [] →
      (∀ p ∈ parts, ∀ c ∈ p, c ≠ h) → ∀ (fuel : Nat),
      (joinList (h :: t) parts).length ≤ fuel →
      splitAux (h :: t) fuel (joinList (h :: t) parts) [] = parts := by
  intro parts
  induction parts with
  | nil => intro hne; exact absurd rfl hne
  | cons p ps ih =>
    intro _ hparts fuel hf
    cases ps with
    | nil =>
      show splitAux (h :: t) fuel p [] = [p]
      rw [splitAux_no_sep h t p fuel [] hf (hparts p (List.mem_cons_self p []))]
      simp
    | cons p2 rest =>
      show splitAux (h :: t) fuel (p ++ (h :: t) ++ joinList (h :: t) (p2 :: rest)) [] = _
      rw [splitAux_at_sep h t hht p (joinList (h :: t) (p2 :: rest)) fuel []
        (by simpa [joinList] using hf) (hparts p (List.mem_cons_self p _))]
      rw [ih (by simp) (fun q hq c hc => hparts q (List.mem_cons_of_mem p hq) c hc)
        (joinList (h :: t) (p2 :: rest)).length (Nat.le_refl _)]
      simp

/-- `strings.Split` inverts `strings.Join` on pieces free of the
separator's head character (for the separators in use, whose later
characters never begin an overlap: `&`, `=`, `", "`). -/
theorem goSplit_goJoin (h : Char) (t : List Char) (sep : String) (hs : sep.data = h :: t)
    (hht : h ∉ t) (parts : List String) (hne : parts ≠ [])
    (hparts : ∀ p ∈ parts, ∀ c ∈ p.data, c ≠ h) :
    goSplit sep (goJoin sep parts) = parts := by
  unfold goSplit goJoin
  rw [hs]
  rw [if_neg (by simp)]
  show (splitAux (h :: t) _ (joinList (h :: t) (parts.map String.data)) []).map String.mk = _
  rw [splitAux_joinList h t hht (parts.map String.data) (by simpa using hne)
    (by
      intro p hp c hc
      rcases List.mem_map.mp hp with ⟨q, hq, rfl⟩
      exact hparts q hq c hc)
    _ (Nat.le_refl _)]
  rw [List.map_map]
  exact List.map_congr_left (fun p _ => rfl) |>.trans (List.map_id _)

/-! ## Characters of escaped output -/

/-- Characters the encoder may emit besides `+`: unreserved ASCII or the
escape marker `%` (hex digits are unreserved ASCII). -/
def peChar (c : Char) : Bool := plainCharB c || c == '%'

/-- `Char.ofNat` on a scalar value below the surrogate range. -/
theorem charToNat_ofNat (b : Nat) (hb : b < 0xD800) : (Char.ofNat b).toNat = b := by
  have hv : b.isValidChar := Or.inl hb
  simp [Char.ofNat, hv, Char.ofNatAux, Char.toNat]
  rfl

/-- Every hex digit the escaper emits is one of the sixteen uppercase hex
characters. -/
theorem hexUpperDigit_mem (n : Nat) : hexUpperDigit n ∈ "0123456789ABCDEF".data := by
  by_cases h : n < 16
  · interval_cases n <;> decide
  · simp only [hexUpperDigit]
    rw [List.getD_eq_default]
    · decide
    · simpa using Nat.le_of_not_lt h

/-- An unreserved byte is below 128. -/
theorem isUnreservedByte_lt (b : Nat) (h : isUnreservedByte b = true) : b < 128 := by
  simp only [isUnreservedByte, Bool.or_eq_true, Bool.and_eq_true, decide_eq_true_eq,
    beq_iff_eq] at h
  omega

/-- Everything `escByte` emits is a `peChar` or the `+` that
`normalizeSpace` later rewrites. -/
theorem escByte_chars (b : Nat) : ∀ c ∈ escByte b, peChar c = true ∨ c = '+' := by
  intro c hc
  simp only [escByte] at hc
  by_cases hu : isUnreservedByte b = true
  · rw [if_pos hu] at hc
    simp only [List.mem_cons, List.not_mem_nil, or_false] at hc
    subst hc
    left
    have hlt : b < 128 := isUnreservedByte_lt b hu
    simp only [peChar, plainCharB, Bool.or_eq_true, Bool.and_eq_true, decide_eq_true_eq]
    left
    constructor
    · rw [charToNat_ofNat b (by omega)]; omega
    · rw [charToNat_ofNat b (by omega)]; exact hu
  · rw [if_neg hu] at hc
    by_cases hsp : (b == 32) = true
    · rw [if_pos hsp] at hc
      simp only [List.mem_cons, List.not_mem_nil, or_false] at hc
      right; exact hc
    · rw [if_neg hsp] at hc
      have hhex : ∀ d ∈ "0123456789ABCDEF".data, peChar d = true := by decide
      simp only [List.mem_cons, List.not_mem_nil, or_false] at hc
      rcases hc with rfl | rfl | rfl
      · left; decide
      · exact Or.inl (hhex _ (hexUpperDigit_mem _))
      · exact Or.inl (hhex _ (hexUpperDigit_mem _))

/-- Every character of a once-encoded value (escape, then `+` → `%20`) is
a `peChar` — in particular never `&`, `=`, `,`, `"` or a space. -/
theorem nsEsc_chars (s : String) :
    ∀ c ∈ (normalizeSpace (queryEscape s)).data, peChar c = true := by
  intro c hc
  have hc2 : c ∈ ((strBytes s).flatMap escByte).flatMap
      (fun d => if d = '+' then "%20".data else [d]) := hc
  rcases List.mem_flatMap.mp hc2 with ⟨d, hd, hcd⟩
  rcases List.mem_flatMap.mp hd with ⟨b, _, hdb⟩
  by_cases hdp : d = '+'
  · rw [if_pos hdp] at hcd
    have : ∀ e ∈ "%20".data, peChar e = true := by decide
    exact this c hcd
  · rw [if_neg hdp] at hcd
    simp only [List.mem_cons, List.not_mem_nil, or_false] at hcd
    rcases escByte_chars b d hdb with h | h
    · rw [hcd]; exact h
    · exact absurd h hdp

/-- A `peChar` is distinct from any non-`peChar` (used with `&`, `=`,
`,`, `"`, space). -/
theorem peChar_ne {c x : Char} (hc : peChar c = true) (hx : peChar x = false) : c ≠ x := by
  intro he
  rw [he, hx] at hc
  cases hc

/-! ## `normalizeSpace` distributes; the encoded string re-splits -/

/-- `replaceChar` distributes over concatenation. -/
theorem replaceChar_append (pat : Char) (rep : List Char) (a b : String) :
    replaceChar pat rep (a ++ b) = replaceChar pat rep a ++ replaceChar pat rep b := by
  apply String.ext
  show (a ++ b).data.flatMap _ = _
  rw [String.data_append, List.flatMap_append]
  rfl

/-- Character-map distribution over `joinList`. -/
theorem flatMap_joinList (f : Char → List Char) (sep : List Char) :
    ∀ parts : List (List Char),
      (joinList sep parts).flatMap f =
        joinList (sep.flatMap f) (parts.map (fun p => p.flatMap f))
  | [] => rfl
  | [x] => rfl
  | x :: y :: rest => by
    show (x ++ sep ++ joinList sep (y :: rest)).flatMap f = _
    rw [List.flatMap_append, List.flatMap_append, flatMap_joinList f sep (y :: rest)]
    rfl

/-- `normalizeSpace` distributes over a `&`-join. -/
theorem ns_goJoin_amp (parts : List String) :
    normalizeSpace (goJoin "&" parts) = goJoin "&" (parts.map normalizeSpace) := by
  apply String.ext
  show (joinList "&".data (parts.map String.data)).flatMap _ = _
  rw [flatMap_joinList]
  show joinList _ _ = joinList "&".data ((parts.map normalizeSpace).map String.data)
  rw [List.map_map, List.map_map]
  rfl

/-- The once-more-encoded rendering of one parameter component, as it
appears in the base string and the header: escape, then `+` → `%20`. -/
def pe (s : String) : String := normalizeSpace (queryEscape s)

/-- An encoded piece (`pe k = pe v`) never contains the character `x`
when `x` is not a `peChar` (such as `&`, `,`, `"` or a space) and differs
from `=`. -/
theorem piece_chars (k v : String) (x : Char) (hx : peChar x = false) (hne : x ≠ '=') :
    ∀ c ∈ (pe k ++ "=" ++ pe v).data, c ≠ x := by
  intro c hc
  rw [String.data_append, String.data_append] at hc
  rcases List.mem_append.mp hc with hc2 | hc2
  · rcases List.mem_append.mp hc2 with hc3 | hc3
    · exact peChar_ne (nsEsc_chars k c hc3) hx
    · simp only [List.mem_cons, List.not_mem_nil, or_false] at hc3
      subst hc3
      exact fun he => hne he.symm
  · exact peChar_ne (nsEsc_chars v c hc2) hx

/-- The `&`-split of the encoded parameter string is exactly the list of
once-more-encoded `k=v` pieces of `Values.Encode`'s iteration. -/
theorem encode_split_eq (ps : Values) (hne : ps ≠ []) :
    goSplit "&" (normalizeSpace (valuesEncode ps)) =
      (groupedPairs ps).map (fun kv => pe kv.1 ++ "=" ++ pe kv.2) := by
  have hmap : (encodePieces ps).map normalizeSpace =
      (groupedPairs ps).map (fun kv => pe kv.1 ++ "=" ++ pe kv.2) := by
    rw [encodePieces_eq_map, List.map_map]
    apply List.map_congr_left
    intro kv _
    show normalizeSpace (queryEscape kv.1 ++ "=" ++ queryEscape kv.2) = _
    rw [normalizeSpace, replaceChar_append, replaceChar_append]
    rfl
  have hjoin : normalizeSpace (valuesEncode ps) =
      goJoin "&" ((groupedPairs ps).map (fun kv => pe kv.1 ++ "=" ++ pe kv.2)) := by
    rw [valuesEncode, ns_goJoin_amp, hmap]
  rw [hjoin]
  have hgne : groupedPairs ps ≠ [] := by
    intro h0
    have := (groupedPairs_perm ps).length_eq
    rw [h0] at this
    cases ps with
    | nil => exact hne rfl
    | cons a l => simp at this
  rw [goSplit_goJoin '&' [] "&" rfl (by simp) _ (by simpa using hgne)
    (by
      intro p hp c hc
      rcases List.mem_map.mp hp with ⟨kv, _, rfl⟩
      exact piece_chars kv.1 kv.2 '&' (by decide) (by decide) c hc)]

/-- The `&`-split of the encoded parameter string is, up to permutation,
the list of once-more-encoded `k=v` pieces of the parameter list — one
piece per pair, multiplicities preserved. -/
theorem encode_split_perm (ps : Values) (hne : ps ≠ []) :
    (goSplit "&" (normalizeSpace (valuesEncode ps))).Perm
      (ps.map (fun kv => pe kv.1 ++ "=" ++ pe kv.2)) := by
  rw [encode_split_eq ps hne]
  exact (groupedPairs_perm ps).map _

/-! ## C7 — determinism of `Signer.Base` over the map contents -/

/-- Two parameter lists describe the same `url.Values` map: same value
slice (same values, same order) for every key.  Go hands `Signer.Base` a
map, so this is exactly the respect in which two runs see "the same
input" even though map iteration order is arbitrary. -/
def equivV (p q : Values) : Prop :=
  ∀ k : String, (p.filter (fun kv => kv.1 == k)).map Prod.snd =
    (q.filter (fun kv => kv.1 == k)).map Prod.snd

/-- Map equivalence survives appending the same pairs. -/
theorem equivV_append (p q l : Values) (h : equivV p q) : equivV (p ++ l) (q ++ l) := by
  intro k
  rw [List.filter_append, List.filter_append, List.map_append, List.map_append, h k]

/-- A key occurs in the list iff its bucket is non-empty. -/
theorem mem_keys_iff_filter (p : Values) (k : String) :
    k ∈ p.map Prod.fst ↔ (p.filter (fun kv => kv.1 == k)).map Prod.snd ≠ [] := by
  constructor
  · intro hk
    rcases List.mem_map.mp hk with ⟨kv, hkv, rfl⟩
    intro hnil
    rw [List.map_eq_nil_iff, List.filter_eq_nil_iff] at hnil
    exact hnil kv hkv (by simp)
  · intro hne
    by_contra hk
    apply hne
    rw [List.map_eq_nil_iff, List.filter_eq_nil_iff]
    intro kv hkv hbeq
    exact hk (List.mem_map.mpr ⟨kv, hkv, by simpa using hbeq⟩)

/-- Equivalent maps have the same sorted key list. -/
theorem sortedKeys_congr (p q : Values) (h : equivV p q) : sortedKeys p = sortedKeys q := by
  have hperm : (sortedKeys p).Perm (sortedKeys q) := by
    rw [List.perm_ext_iff_of_nodup (sortedKeys_nodup p) (sortedKeys_nodup q)]
    intro k
    rw [mem_sortedKeys, mem_sortedKeys, mem_keys_iff_filter, mem_keys_iff_filter, h k]
  exact List.eq_of_perm_of_sorted hperm (sortStrings_sorted _) (sortStrings_sorted _)

/-- Equivalent maps encode to the same string: `Values.Encode` depends
only on the map contents, not on the list representation (and hence not
on Go's map iteration order, which `Encode` sorts away). -/
theorem valuesEncode_congr (p q : Values) (h : equivV p q) :
    valuesEncode p = valuesEncode q := by
  rw [valuesEncode, valuesEncode]
  congr 1
  rw [encodePieces, encodePieces, sortedKeys_congr p q h]
  apply flatMap_congr_mem
  intro k _
  have hp : (p.filter (fun kv => kv.1 == k)).map
      (fun kv => queryEscape k ++ "=" ++ queryEscape kv.2) =
      ((p.filter (fun kv => kv.1 == k)).map Prod.snd).map
        (fun v => queryEscape k ++ "=" ++ queryEscape v) := by
    rw [List.map_map]; rfl
  have hq : (q.filter (fun kv => kv.1 == k)).map
      (fun kv => queryEscape k ++ "=" ++ queryEscape kv.2) =
      ((q.filter (fun kv => kv.1 == k)).map Prod.snd).map
        (fun v => queryEscape k ++ "=" ++ queryEscape v) := by
    rw [List.map_map]; rfl
  rw [hp, hq, h k]

/-- **C7 (amended)**: `Signer.Base` is a deterministic function of the
nonce, timestamp, method, URL and the *contents* of the parameter map —
two invocations seeing the same key → value-slice contents produce the
identical base string, with no hidden randomness and no dependence on
the map's internal ordering.  (As `base_repeat_counterexample` shows, a
second invocation reusing the map the first call mutated is a different
input: the first call appended `oauth_nonce` and `oauth_timestamp`.) -/
theorem base_deterministic_amended :
    ∀ (s : Signer) (req : Request) (p q : Values), equivV p q →
      (signerBase s req p).1 = (signerBase s req q).1 := by
  intro s req p q h
  simp only [signerBase, valuesAdd]
  have h2 : equivV ((p ++ [("oauth_nonce", s.nonce)]) ++ [("oauth_timestamp", toString s.timestampUnix)])
      ((q ++ [("oauth_nonce", s.nonce)]) ++ [("oauth_timestamp", toString s.timestampUnix)]) := by
    apply equivV_append
    apply equivV_append
    exact h
  rw [valuesEncode_congr _ _ h2]

/-- Witness for C7 (amended): two representations of the same two-key
map, interleaved differently, give the identical base string. -/
theorem base_deterministic_amended_witness :
    (signerBase ⟨"n", 1⟩ ⟨"GET", ⟨"http", "h", "/", ""⟩, [], none⟩
      [("b", "y"), ("a", "x")]).1 =
    (signerBase ⟨"n", 1⟩ ⟨"GET", ⟨"http", "h", "/", ""⟩, [], none⟩
      [("a", "x"), ("b", "y")]).1 := by
  apply base_deterministic_amended
  intro k
  by_cases ha : "a" = k
  · subst ha; decide
  · by_cases hb : "b" = k
    · subst hb; decide
    · have hfa : ∀ (l : Values), (∀ kv ∈ l, kv.1 ≠ k) →
          l.filter (fun kv => kv.1 == k) = [] := by
        intro l hl
        rw [List.filter_eq_nil_iff]
        intro kv hkv
        simpa using hl kv hkv
      rw [hfa _ (by
          intro kv hkv
          simp only [List.mem_cons, List.not_mem_nil, or_false] at hkv
          rcases hkv with rfl | rfl
          · exact fun he => hb he
          · exact fun he => ha he),
        hfa _ (by
          intro kv hkv
          simp only [List.mem_cons, List.not_mem_nil, or_false] at hkv
          rcases hkv with rfl | rfl
          · exact fun he => ha he
          · exact fun he => hb he)]

/-! ## C5 — what enters the parameter string, and how often it is encoded -/

/-- The pairs `prepareParams` takes from a form-encoded body (empty when
there is no body, the content type differs, or parsing fails — the
failure case aborts the caller anyway). -/
def bodyPairsOf (r : Request) : Values :=
  match r.body with
  | some b =>
    if headerGet "Content-Type" r.header == "application/x-www-form-urlencoded" then
      match parseQuery (if b.consumed then "" else b.content) with
      | .ok ps => ps
      | .error _ => []
    else []
  | none => []

/-- Folding `Values.Add` of escaped query values is an append (stated in
the form left after unfolding `valuesAdd`). -/
theorem foldl_valuesAdd_esc (q ps : Values) :
    q.foldl (fun acc kv => acc ++ [(kv.1, queryEscape kv.2)]) ps =
      ps ++ q.map (fun kv => (kv.1, queryEscape kv.2)) := by
  induction q generalizing ps with
  | nil => simp
  | cons kv rest ih =>
    rw [List.foldl_cons, ih]
    rw [List.append_assoc]
    rfl

/-- The parameter list a successful `prepareParams` returns, in closed
form: body pairs as parsed, query pairs with the value escaped once
already, then the three fixed OAuth parameters. -/
theorem prepareParams_ok_params (r : Request) (ck : String) (ps : Values)
    (hok : (prepareParams r ck).1 = .ok ps) :
    ps = bodyPairsOf r ++
      (urlQuery r.url.rawQuery).map (fun kv => (kv.1, queryEscape kv.2)) ++
      [("oauth_consumer_key", ck), ("oauth_signature_method", "HMAC-SHA1"),
       ("oauth_version", "1.0")] := by
  obtain ⟨m, u, h, b⟩ := r
  cases b with
  | none =>
    simp only [prepareParams, valuesAdd, foldl_valuesAdd_esc] at hok
    injection hok with hok
    rw [← hok]
    simp [bodyPairsOf]
  | some bd =>
    simp only [prepareParams] at hok
    by_cases hct : (headerGet "Content-Type" h == "application/x-www-form-urlencoded") = true
    · rw [if_pos hct] at hok
      cases hpq : parseQuery (if bd.consumed then "" else bd.content) with
      | error e => rw [hpq] at hok; cases hok
      | ok pb =>
        rw [hpq] at hok
        simp only [valuesAdd, foldl_valuesAdd_esc] at hok
        injection hok with hok
        rw [← hok]
        simp only [bodyPairsOf, if_pos hct, hpq]
        simp [List.append_assoc]
    · rw [if_neg hct] at hok
      simp only [valuesAdd, foldl_valuesAdd_esc] at hok
      injection hok with hok
      rw [← hok]
      simp only [bodyPairsOf, if_neg hct]
      simp [List.append_assoc]

/-- **C5 (amended)**: on a successful preparation, the parameter list is
the parsed body pairs, the URL query pairs *with their values already
percent-encoded once by `prepareParams`*, and the three fixed OAuth
pairs; the string entering the hash and the header then consists, up to
the sorted order, of exactly one `k=v` piece per pair with both sides
percent-encoded once more at that point (multiple values of one key all
survive).  Hence body and OAuth protocol values are encoded exactly
once, but URL query values are encoded twice. -/
theorem param_encoding_amended :
    ∀ (r : Request) (ck : String) (ps : Values), (prepareParams r ck).1 = .ok ps →
      ps = bodyPairsOf r ++
        (urlQuery r.url.rawQuery).map (fun kv => (kv.1, queryEscape kv.2)) ++
        [("oauth_consumer_key", ck), ("oauth_signature_method", "HMAC-SHA1"),
         ("oauth_version", "1.0")] ∧
      (goSplit "&" (normalizeSpace (valuesEncode ps))).Perm
        (ps.map (fun kv => pe kv.1 ++ "=" ++ pe kv.2)) := by
  intro r ck ps hok
  have h1 := prepareParams_ok_params r ck ps hok
  refine ⟨h1, encode_split_perm ps ?_⟩
  rw [h1]
  simp

/-- Witness for C5 (amended): the `?q=%21` request — the query value `!`
arrives in the parameter string as `%2521`. -/
theorem param_encoding_amended_witness :
    ([("q", "%21"), ("oauth_consumer_key", "ck"), ("oauth_signature_method", "HMAC-SHA1"),
       ("oauth_version", "1.0")] : Values) =
      bodyPairsOf ⟨"GET", ⟨"http", "h", "/", "q=%21"⟩, [], none⟩ ++
        (urlQuery "q=%21").map (fun kv => (kv.1, queryEscape kv.2)) ++
        [("oauth_consumer_key", "ck"), ("oauth_signature_method", "HMAC-SHA1"),
         ("oauth_version", "1.0")] ∧
    (goSplit "&" (normalizeSpace (valuesEncode
        [("q", "%21"), ("oauth_consumer_key", "ck"), ("oauth_signature_method", "HMAC-SHA1"),
         ("oauth_version", "1.0")]))).Perm
      (([("q", "%21"), ("oauth_consumer_key", "ck"), ("oauth_signature_method", "HMAC-SHA1"),
         ("oauth_version", "1.0")] : Values).map
        (fun kv => pe kv.1 ++ "=" ++ pe kv.2)) :=
  param_encoding_amended ⟨"GET", ⟨"http", "h", "/", "q=%21"⟩, [], none⟩ "ck"
    [("q", "%21"), ("oauth_consumer_key", "ck"), ("oauth_signature_method", "HMAC-SHA1"),
     ("oauth_version", "1.0")] (by rfl)

/-! ## C4 — the order of the parameter string -/

/-- **C4 (amended)**: the `&`-split of the parameter string (the exact
string that enters the base string and, re-quoted, the `Authorization`
header) lists the pairs grouped by *raw* key — the distinct keys in
`sort.Strings` (byte-wise, pre-escaping) ascending order — and, inside
one key, the key's values in insertion order; it is *not* re-sorted by
encoded key, and equal-key values are *not* sorted by encoded value. -/
theorem encode_order_amended :
    ∀ ps : Values, ps ≠ [] →
      goSplit "&" (normalizeSpace (valuesEncode ps)) =
        (sortedKeys ps).flatMap (fun k =>
          (ps.filter (fun kv => kv.1 == k)).map (fun kv => pe k ++ "=" ++ pe kv.2)) ∧
      List.Sorted strLe (sortedKeys ps) ∧ (sortedKeys ps).Nodup ∧
      (∀ k, k ∈ sortedKeys ps ↔ k ∈ ps.map Prod.fst) := by
  intro ps hne
  refine ⟨?_, sortStrings_sorted _, sortedKeys_nodup ps, fun k => mem_sortedKeys ps k⟩
  rw [encode_split_eq ps hne, groupedPairs, List.map_flatMap]
  apply flatMap_congr_mem
  intro k _
  apply List.map_congr_left
  intro kv hkv
  have hk : kv.1 = k := by simpa using (List.mem_filter.mp hkv).2
  rw [hk]

/-- Witness for C4 (amended): the `":" / "0"` map — raw-key order puts
`0=w` before `%3A=v` in the split. -/
theorem encode_order_amended_witness :
    goSplit "&" (normalizeSpace (valuesEncode [(":", "v"), ("0", "w")])) =
      (sortedKeys [(":", "v"), ("0", "w")]).flatMap (fun k =>
        (([(":", "v"), ("0", "w")] : Values).filter (fun kv => kv.1 == k)).map
          (fun kv => pe k ++ "=" ++ pe kv.2)) ∧
    List.Sorted strLe (sortedKeys [(":", "v"), ("0", "w")]) ∧
    (sortedKeys [(":", "v"), ("0", "w")]).Nodup ∧
    (∀ k, k ∈ sortedKeys [(":", "v"), ("0", "w")] ↔
      k ∈ ([(":", "v"), ("0", "w")] : Values).map Prod.fst) :=
  encode_order_amended [(":", "v"), ("0", "w")] (by decide)

/-! ## C8 — the header codec round-trip -/

/-- Did the round trip reach the base transport (needed to name the sent
request in the witness below)? -/
def exceptIsOk (r : Except String Request) : Bool :=
  match r with
  | .ok _ => true
  | .error _ => false

/-- Witness for C9: a concrete GET round trip hands the original request
back untouched. -/
theorem roundTrip_frame_witness :
    (transportRoundTrip ⟨"ck", "cs", "at", "as"⟩
        ⟨"GET", ⟨"http", "example.com", "/", ""⟩, [], none⟩ "n" 1).1 =
      (⟨"GET", ⟨"http", "example.com", "/", ""⟩, [], none⟩ : Request) := by
  have h := roundTrip_frame ⟨"ck", "cs", "at", "as"⟩
      ⟨"GET", ⟨"http", "example.com", "/", ""⟩, [], none⟩ "n" 1
  have hOk : exceptIsOk (transportRoundTrip ⟨"ck", "cs", "at", "as"⟩
      ⟨"GET", ⟨"http", "example.com", "/", ""⟩, [], none⟩ "n" 1).2 = true := by decide
  cases hE : (transportRoundTrip ⟨"ck", "cs", "at", "as"⟩
      ⟨"GET", ⟨"http", "example.com", "/", ""⟩, [], none⟩ "n" 1).2 with
  | error e => rw [hE] at hOk; cases hOk
  | ok S => exact h.2.2 (fun b hb => by cases hb) S hE

/-- A character-replacement pass is the identity when the pattern never
occurs. -/
theorem flatMapReplace_no_op (pat : Char) (rep : List Char) :
    ∀ l : List Char, (∀ c ∈ l, c ≠ pat) →
      (l.flatMap fun c => if c = pat then rep else [c]) = l := by
  intro l
  induction l with
  | nil => intro _; rfl
  | cons c cs ih =>
    intro h
    rw [List.flatMap_cons, if_neg (h c (List.mem_cons_self c cs)),
      ih (fun d hd => h d (List.mem_cons_of_mem c hd))]
    rfl

/-- A character-replacement pass is the identity when the pattern never
occurs. -/
theorem replaceChar_no_op (pat : Char) (rep : List Char) (s : String)
    (h : ∀ c ∈ s.data, c ≠ pat) : replaceChar pat rep s = s :=
  String.ext (flatMapReplace_no_op pat rep s.data h)

/-- Stripping the quotes the formatter wrapped a quote-free value in. -/
theorem removeQuotes_wrap (s : String) (h : ∀ c ∈ s.data, c ≠ '"') :
    removeQuotes ("\"" ++ s ++ "\"") = s := by
  rw [removeQuotes, replaceChar_append, replaceChar_append,
    replaceChar_no_op '"' [] s h]
  have h1 : replaceChar '"' [] "\"" = "" := rfl
  rw [h1]
  apply String.ext
  simp [String.data_append]

/-- Splitting a `k=v` piece whose sides are free of `=`. -/
theorem goSplit_eq_pair (k v : String) (hk : ∀ c ∈ k.data, c ≠ '=')
    (hv : ∀ c ∈ v.data, c ≠ '=') :
    goSplit "=" (k ++ "=" ++ v) = [k, v] := by
  have hj : k ++ "=" ++ v = goJoin "=" [k, v] := by rw [goJoin_two]
  rw [hj, goSplit_goJoin '=' [] "=" rfl (by simp) [k, v] (by simp)]
  intro p hp
  simp only [List.mem_cons, List.not_mem_nil, or_false] at hp
  rcases hp with rfl | rfl
  · exact hk
  · exact hv

/-- `fmtPair` on a well-formed `k=v` piece quotes the value. -/
theorem fmtPair_eq (k v : String) (hk : ∀ c ∈ k.data, c ≠ '=')
    (hv : ∀ c ∈ v.data, c ≠ '=') :
    fmtPair (k ++ "=" ++ v) = k ++ "=" ++ "\"" ++ v ++ "\"" := by
  rw [fmtPair]
  rw [goSplit_eq_pair k v hk hv]
  rfl

/-- Go map assignment appends when the key is fresh. -/
theorem mapInsert_not_mem (k v : String) (m : List (String × String))
    (h : k ∉ m.map Prod.fst) : mapInsert k v m = m ++ [(k, v)] := by
  induction m with
  | nil => rfl
  | cons kv rest ih =>
    rw [mapInsert]
    rw [if_neg (by
      intro hbeq
      exact h (List.mem_map.mpr ⟨kv, List.mem_cons_self kv rest, by simpa using hbeq⟩))]
    rw [ih (fun hm => h (by rw [List.map_cons]; exact List.mem_cons_of_mem _ hm))]
    rfl

/-- Running the header parser's pair loop over well-formed quoted pieces
with fresh, duplicate-free keys collects exactly those pairs. -/
theorem parseAux_ok :
    ∀ (l : List (String × String)) (m : List (String × String)),
      (∀ kv ∈ l, (∀ c ∈ kv.1.data, c ≠ '=') ∧ (∀ c ∈ kv.2.data, c ≠ '=' ∧ c ≠ '"')) →
      (∀ kv ∈ l, kv.1 ∉ m.map Prod.fst) → (l.map Prod.fst).Nodup →
      parseOAuthPairsAux (l.map (fun kv => kv.1 ++ "=" ++ ("\"" ++ kv.2 ++ "\""))) m =
        .ok (m ++ l) := by
  intro l
  induction l with
  | nil => intro m _ _ _; simp [parseOAuthPairsAux]
  | cons kv rest ih =>
    intro m hwf hfresh hnd
    have hkv := hwf kv (List.mem_cons_self kv rest)
    have hsplit : goSplit "=" (kv.1 ++ "=" ++ ("\"" ++ kv.2 ++ "\"")) =
        [kv.1, "\"" ++ kv.2 ++ "\""] := by
      apply goSplit_eq_pair kv.1 _ hkv.1
      intro c hc
      rw [String.data_append, String.data_append] at hc
      rcases List.mem_append.mp hc with hc2 | hc2
      · rcases List.mem_append.mp hc2 with hc3 | hc3
        · simp only [List.mem_cons, List.not_mem_nil, or_false] at hc3
          subst hc3; decide
        · exact (hkv.2 c hc3).1
      · simp only [List.mem_cons, List.not_mem_nil, or_false] at hc2
        subst hc2; decide
    rw [List.map_cons, parseOAuthPairsAux, hsplit]
    rw [if_neg (show ¬([kv.1, "\"" ++ kv.2 ++ "\""].length ≠ 2) by simp)]
    have hquotes : removeQuotes ("\"" ++ kv.2 ++ "\"") = kv.2 :=
      removeQuotes_wrap kv.2 (fun c hc => (hkv.2 c hc).2)
    show parseOAuthPairsAux _ (mapInsert kv.1 (removeQuotes ("\"" ++ kv.2 ++ "\"")) m) = _
    rw [hquotes, mapInsert_not_mem kv.1 kv.2 m (hfresh kv (List.mem_cons_self kv rest))]
    rw [ih (m ++ [(kv.1, kv.2)])
      (fun kv2 h2 => hwf kv2 (List.mem_cons_of_mem kv h2))
      (by
        intro kv2 h2
        rw [List.map_append, List.mem_append]
        rintro (hm | hm)
        · exact hfresh kv2 (List.mem_cons_of_mem kv h2) hm
        · simp only [List.map_cons, List.map_nil, List.mem_cons, List.not_mem_nil,
            or_false] at hm
          exact (List.nodup_cons.mp hnd).1 (hm ▸ List.mem_map.mpr ⟨kv2, h2, rfl⟩))
      (List.nodup_cons.mp hnd).2]
    simp

/-- Unreserved characters differ from every non-unreserved one. -/
theorem plainChar_ne {c x : Char} (hc : plainCharB c = true) (hx : plainCharB x = false) :
    c ≠ x := by
  intro he
  rw [he, hx] at hc
  cases hc

/-- Parsing a header that begins with the scheme token reduces to the
pair loop over the `", "`-split remainder. -/
theorem parse_header_step (rest : String) :
    parseOAuthParams ("OAuth " ++ rest) = parseOAuthPairsAux (goSplit ", " rest) [] := by
  rw [parseOAuthParams]
  rw [if_pos (by
    show sepMatch "OAuth".data ("OAuth " ++ rest).data = true
    rw [String.data_append]
    have hd : ("OAuth " : String).data = "OAuth".data ++ [' '] := rfl
    rw [hd, List.append_assoc]
    exact sepMatch_self_append "OAuth".data ([' '] ++ rest.data))]
  have hdrop : goDrop 6 ("OAuth " ++ rest) = rest := by
    apply String.ext
    show (("OAuth " ++ rest).data).drop 6 = rest.data
    rw [String.data_append]
    exact List.drop_left "OAuth ".data rest.data
  rw [hdrop]

/-- A formatted header piece (`k="v"` with both sides encoder output)
never contains `x` when `x` is no `peChar`, no `=` and no quote. -/
theorem fpiece_chars (k v : String) (x : Char) (hx : peChar x = false) (h1 : x ≠ '=')
    (h2 : x ≠ '"') :
    ∀ c ∈ (pe k ++ "=" ++ ("\"" ++ pe v ++ "\"")).data, c ≠ x := by
  intro c hc
  rw [String.data_append, String.data_append, String.data_append, String.data_append] at hc
  rcases List.mem_append.mp hc with hc2 | hc3
  · rcases List.mem_append.mp hc2 with hc4 | hc4
    · exact peChar_ne (nsEsc_chars k c hc4) hx
    · simp only [List.mem_cons, List.not_mem_nil, or_false] at hc4
      subst hc4
      exact fun he => h1 he.symm
  · rcases List.mem_append.mp hc3 with hc4 | hc4
    · rcases List.mem_append.mp hc4 with hc5 | hc5
      · simp only [List.mem_cons, List.not_mem_nil, or_false] at hc5
        subst hc5
        exact fun he => h2 he.symm
      · exact peChar_ne (nsEsc_chars v c hc5) hx
    · simp only [List.mem_cons, List.not_mem_nil, or_false] at hc4
      subst hc4
      exact fun he => h2 he.symm

/-- **C8 (amended)**: for a non-empty parameter set with duplicate-free
keys made of unreserved characters (true of every OAuth parameter set
the library builds), parsing the formatted `Authorization` header
succeeds and recovers exactly the key → value associations of the
parameter set with each value percent-encoded, up to the sorted pair
order.  (Duplicate keys collapse — the parser returns a map — and keys
are recovered in their percent-encoded form, hence the restrictions.) -/
theorem header_roundtrip_amended :
    ∀ ps : Values, ps ≠ [] → (ps.map Prod.fst).Nodup →
      (∀ kv ∈ ps, ∀ c ∈ kv.1.data, plainCharB c = true) →
      ∃ m, parseOAuthParams (formatOAuthHeader ps) = .ok m ∧
        m.Perm (ps.map (fun kv => (kv.1, pe kv.2))) := by
  intro ps hne hnd hplain
  have hkeyp : ∀ kv ∈ groupedPairs ps, pe kv.1 = kv.1 := by
    intro kv hkv
    have hmem : kv ∈ ps := (groupedPairs_perm ps).mem_iff.mp hkv
    have hp := hplain kv hmem
    rw [pe, queryEscape_plain kv.1 hp, normalizeSpace]
    apply replaceChar_no_op
    intro c hc he
    have hcp := hp c hc
    rw [he] at hcp
    exact absurd hcp (by decide)
  have hgne : groupedPairs ps ≠ [] := by
    intro h0
    have := (groupedPairs_perm ps).length_eq
    rw [h0] at this
    cases ps with
    | nil => exact hne rfl
    | cons a l => simp at this
  have hformat : formatOAuthHeader ps =
      "OAuth " ++ goJoin ", " ((groupedPairs ps).map
        (fun kv => pe kv.1 ++ "=" ++ ("\"" ++ pe kv.2 ++ "\""))) := by
    simp only [formatOAuthHeader]
    rw [encode_split_eq ps hne, List.map_map]
    congr 1
    congr 1
    apply List.map_congr_left
    intro kv _
    show fmtPair (pe kv.1 ++ "=" ++ pe kv.2) = _
    rw [fmtPair_eq (pe kv.1) (pe kv.2)
      (fun c hc => peChar_ne (nsEsc_chars kv.1 c hc) (by decide))
      (fun c hc => peChar_ne (nsEsc_chars kv.2 c hc) (by decide))]
    apply String.ext
    simp [String.data_append]
  rw [hformat, parse_header_step]
  rw [goSplit_goJoin ',' [' '] ", " rfl (by decide) _ (by simpa using hgne)
    (by
      intro p hp c hc
      rcases List.mem_map.mp hp with ⟨kv, _, rfl⟩
      exact fpiece_chars kv.1 kv.2 ',' (by decide) (by decide) (by decide) c hc)]
  have hshape : (groupedPairs ps).map
      (fun kv => pe kv.1 ++ "=" ++ ("\"" ++ pe kv.2 ++ "\"")) =
      ((groupedPairs ps).map (fun kv => (kv.1, pe kv.2))).map
        (fun kv => kv.1 ++ "=" ++ ("\"" ++ kv.2 ++ "\"")) := by
    rw [List.map_map]
    apply List.map_congr_left
    intro kv hkv
    show pe kv.1 ++ "=" ++ ("\"" ++ pe kv.2 ++ "\"") = _
    rw [hkeyp kv hkv]
    rfl
  rw [hshape]
  have hlkeys : (((groupedPairs ps).map (fun kv => (kv.1, pe kv.2))).map Prod.fst).Nodup := by
    rw [List.map_map]
    have : (Prod.fst ∘ fun kv : String × String => (kv.1, pe kv.2)) = Prod.fst := rfl
    rw [this]
    exact (((groupedPairs_perm ps).map Prod.fst).symm).nodup hnd
  rw [parseAux_ok ((groupedPairs ps).map (fun kv => (kv.1, pe kv.2))) []
    (by
      intro kv hkv
      rcases List.mem_map.mp hkv with ⟨kv0, hkv0, rfl⟩
      have hmem : kv0 ∈ ps := (groupedPairs_perm ps).mem_iff.mp hkv0
      refine ⟨?_, ?_⟩
      · intro c hc
        exact plainChar_ne (hplain kv0 hmem c hc) (by decide)
      · intro c hc
        exact ⟨peChar_ne (nsEsc_chars kv0.2 c hc) (by decide),
          peChar_ne (nsEsc_chars kv0.2 c hc) (by decide)⟩)
    (by simp) hlkeys]
  refine ⟨_, rfl, ?_⟩
  show (([] : List (String × String)) ++ _).Perm _
  rw [List.nil_append]
  exact (groupedPairs_perm ps).map _

/-- Whether the test helper's parse succeeded. -/
def parseIsOk (r : Except String (List (String × String))) : Bool :=
  match r with
  | .ok _ => true
  | .error _ => false

/-- The parsed association list (empty on a failed parse). -/
def oauthParamsOf (r : Except String (List (String × String))) : List (String × String) :=
  match r with
  | .ok m => m
  | .error _ => []

/-- Counterexample to C8: with a duplicated key, `parse ∘ format` does
not recover the associations — the parser fills a map, so `a="x"` is
overwritten by `a="y"` and the pair `("a", "x")` is lost (its value
percent-encodes to itself). -/
theorem header_roundtrip_counterexample :
    parseIsOk (parseOAuthParams (formatOAuthHeader [("a", "x"), ("a", "y")])) = true ∧
    oauthParamsOf (parseOAuthParams (formatOAuthHeader [("a", "x"), ("a", "y")])) =
      [("a", "y")] ∧
    pe "x" = "x" ∧
    ("a", "x") ∉ oauthParamsOf (parseOAuthParams (formatOAuthHeader [("a", "x"), ("a", "y")])) := by
  refine ⟨by decide, by decide, by decide, by decide⟩

/-- Witness for C8 (amended): a two-pair set whose value needs encoding
round-trips to the encoded associations. -/
theorem header_roundtrip_amended_witness :
    ∃ m, parseOAuthParams (formatOAuthHeader
        [("oauth_consumer_key", "ck"), ("oauth_nonce", "a b")]) = .ok m ∧
      m.Perm (([("oauth_consumer_key", "ck"), ("oauth_nonce", "a b")] : Values).map
        (fun kv => (kv.1, pe kv.2))) :=
  header_roundtrip_amended [("oauth_consumer_key", "ck"), ("oauth_nonce", "a b")]
    (by decide) (by decide) (by decide)
